import Mathlib

/-
  Verification development for the crossword generator repository.

  Shallow embedding of the Python sources:
    src/ai_limiter.py      (AICallbackLimiter)
    src/models.py          (Cell, Grid, WordSlot, matches_pattern)
    src/csp_solver.py      (CrosswordCSP: revise, ac3, selection, backtrack, solve)
    src/ai_word_generator.py (AIWordGenerator.get_words_matching_pattern)

  Conventions of the embedding:
  - Python dict / set values are modelled by association lists and lists
    used with membership semantics; Python set iteration order is
    unspecified, the model fixes insertion order (no settled claim
    depends on a set iteration order).
  - Python integers used as list indices are modelled by Int together
    with the Python indexing rule (negative indices wrap, indices past
    the end raise IndexError); plain counters are modelled by Nat.
  - In-place mutation is modelled by explicit state passing; a Python
    method that can raise returns Except or Option, and an Except error
    value carries the state of the object at the moment the exception
    escapes (Python mutations performed before the raise survive it).
  - Recursive procedures whose termination is not structural (AC-3 with
    oracle refills, backtracking search) take an explicit fuel
    parameter; a result of none means the fuel was exhausted, so every
    actual terminating Python run is a run with some sufficient fuel.
  - Wall-clock timing, logging and the statistics counters that are only
    printed are not modelled.
-/

namespace CrosswordVerif

/-! ## Association list helpers (model of Python dict) -/

/-- Lookup in an association list with a default value, the model of
Python dict.get(key, default) and of defaultdict reads. -/
def lookupD (m : List (String × Nat)) (k : String) (d : Nat) : Nat :=
  match m.find? (fun p => p.1 = k) with
  | some p => p.2
  | none => d

/-- Update of an association list: replace the first binding of the key,
or append a new binding, the model of Python dict assignment. -/
def assocSet (m : List (String × Nat)) (k : String) (v : Nat) : List (String × Nat) :=
  match m with
  | [] => [(k, v)]
  | p :: rest => if p.1 = k then (k, v) :: rest else p :: assocSet rest k v

/-! ## AICallbackLimiter (src/ai_limiter.py) -/

/-- Record of a single AI call (class CallRecord); the wall-clock
timestamp field is not modelled. -/
structure CallRecord where
  prompt_type : String
  tokens_used : Nat
  success : Bool
  pattern : Option String
deriving Repr, DecidableEq

/-- State of class AICallbackLimiter.  The on_limit_reached_handler
callback only performs notification and is not modelled; start_time is
wall-clock and not modelled. -/
structure Limiter where
  max_total : Nat
  limits : List (String × Nat)
  counts : List (String × Nat)
  total_calls : Nat
  total_tokens : Nat
  call_history : List CallRecord
deriving Repr, DecidableEq

/-- Freshly constructed AICallbackLimiter(max_total, limits). -/
def Limiter.fresh (maxTotal : Nat) (limits : List (String × Nat)) : Limiter :=
  { max_total := maxTotal, limits := limits, counts := [],
    total_calls := 0, total_tokens := 0, call_history := [] }

/-- Method AICallbackLimiter.can_call. -/
def Limiter.can_call (l : Limiter) (prompt_type : String) : Bool :=
  if l.total_calls ≥ l.max_total then
    false
  else if lookupD l.counts prompt_type 0 ≥ lookupD l.limits prompt_type l.max_total then
    false
  else
    true

/-- Method AICallbackLimiter.record_call. -/
def Limiter.record_call (l : Limiter) (prompt_type : String)
    (tokens_used : Nat) (success : Bool) (pattern : Option String) : Limiter :=
  { l with
    counts := assocSet l.counts prompt_type (lookupD l.counts prompt_type 0 + 1),
    total_calls := l.total_calls + 1,
    total_tokens := l.total_tokens + tokens_used,
    call_history := l.call_history ++
      [{ prompt_type := prompt_type, tokens_used := tokens_used,
         success := success, pattern := pattern }] }

/-- Method AICallbackLimiter.reset (start_time not modelled). -/
def Limiter.reset (l : Limiter) : Limiter :=
  { l with counts := [], total_calls := 0, total_tokens := 0, call_history := [] }

/-- Operations of a client session against the limiter.  A guarded
record is the published usage discipline of the class: record_call is
issued only immediately after a can_call for the same kind returned
True (the query itself does not change any counter). -/
inductive LimiterOp where
  | guardedRecord (prompt_type : String) (tokens_used : Nat) (success : Bool)
      (pattern : Option String)
  | reset
deriving Repr, DecidableEq

/-- Execute one operation: a guarded record performs record_call exactly
when the immediately preceding can_call of the same kind returns True,
and is skipped otherwise. -/
def LimiterOp.step (l : Limiter) : LimiterOp → Limiter
  | .guardedRecord pt tok suc pat =>
      if l.can_call pt then l.record_call pt tok suc pat else l
  | .reset => l.reset

/-- Run a sequence of operations. -/
def Limiter.run (l : Limiter) (ops : List LimiterOp) : Limiter :=
  ops.foldl LimiterOp.step l

/-- Invariant claimed for the limiter: the total count respects the
total cap and every per-kind count respects its per-kind cap (the cap
defaulting to max_total for kinds without an explicit limit). -/
def Limiter.withinLimits (l : Limiter) : Prop :=
  l.total_calls ≤ l.max_total ∧
  ∀ pt : String, lookupD l.counts pt 0 ≤ lookupD l.limits pt l.max_total

/-! ## Grid model (src/models.py) -/

/-- Enum CellType. -/
inductive CellType where
  | empty
  | letter
  | block
deriving Repr, DecidableEq

/-- Enum Direction. -/
inductive Direction where
  | across
  | down
deriving Repr, DecidableEq

/-- Dataclass Cell.  The letter is an optional single character. -/
structure Cell where
  row : Nat
  col : Nat
  cell_type : CellType := CellType.empty
  letter : Option Char := none
  number : Option Nat := none
deriving Repr, DecidableEq

/-- Dataclass Grid: a size and the nested cell lists. -/
structure Grid where
  size : Nat
  cells : List (List Cell)
deriving Repr, DecidableEq

/-- Construction Grid(size=n) with the default cell matrix built by
Grid.__post_init__. -/
def mkGrid (n : Nat) : Grid :=
  { size := n,
    cells := (List.range n).map (fun r =>
      (List.range n).map (fun c => { row := r, col := c })) }

/-- Python list indexing: an index in [0, n) is used as is, an index in
[-n, 0) wraps to n + i, anything else raises IndexError (none). -/
def pyIdx (n : Nat) (i : Int) : Option Nat :=
  if 0 ≤ i ∧ i < (n : Int) then some i.toNat
  else if -(n : Int) ≤ i ∧ i < 0 then some ((n : Int) + i).toNat
  else none

/-- Python read xs[i]. -/
def pyGet (xs : List α) (i : Int) : Option α :=
  match pyIdx xs.length i with
  | some j => xs[j]?
  | none => none

/-- Python statement cells[r][c].cell_type = t on the nested cell lists;
none models the IndexError raised on an out-of-range index. -/
def setCellType (cells : List (List Cell)) (r c : Int) (t : CellType) :
    Option (List (List Cell)) :=
  match pyIdx cells.length r with
  | none => none
  | some ri =>
    match cells[ri]? with
    | none => none
    | some rowL =>
      match pyIdx rowL.length c with
      | none => none
      | some ci =>
        match rowL[ci]? with
        | none => none
        | some cell =>
          some (cells.set ri (rowL.set ci { cell with cell_type := t }))

/-- Method Grid.set_block.  The primary cell is set first, then the
mirror cell computed from self.size; an error value carries the state of
the grid at the moment the IndexError escapes, since the mutation
already performed in place survives the exception. -/
def Grid.set_block (g : Grid) (row col : Int) : Except Grid Grid :=
  match setCellType g.cells row col CellType.block with
  | none => .error g
  | some cells1 =>
    let g1 : Grid := { g with cells := cells1 }
    let sym_row : Int := (g.size : Int) - 1 - row
    let sym_col : Int := (g.size : Int) - 1 - col
    match setCellType cells1 sym_row sym_col CellType.block with
    | none => .error g1
    | some cells2 => .ok { g with cells := cells2 }

/-- Method Grid.is_valid_position. -/
def Grid.is_valid_position (g : Grid) (row col : Int) : Bool :=
  0 ≤ row ∧ row < (g.size : Int) ∧ 0 ≤ col ∧ col < (g.size : Int)

/-- Read access to a cell at non-negative coordinates. -/
def Grid.cellAt (g : Grid) (r c : Nat) : Option Cell :=
  match g.cells[r]? with
  | some rowL => rowL[c]?
  | none => none

/-- Truth of the cell at (r, c) being a block (Cell.is_block). -/
def Grid.blockAt (g : Grid) (r c : Nat) : Bool :=
  match g.cellAt r c with
  | some cell => cell.cell_type = CellType.block
  | none => false

/-- Well-formedness of the nested lists: the matrix is size × size.
Grids built by the constructor satisfy it. -/
def Grid.WF (g : Grid) : Prop :=
  g.cells.length = g.size ∧ ∀ rowL ∈ g.cells, rowL.length = g.size

/-- Sequential application of in-place set_block calls; a raised
IndexError aborts the rest of the sequence, carrying the state. -/
def applyBlocks (g : Grid) (ops : List (Int × Int)) : Except Grid Grid :=
  match ops with
  | [] => .ok g
  | (r, c) :: rest =>
    match g.set_block r c with
    | .error e => .error e
    | .ok g1 => applyBlocks g1 rest

/-! ## Word slots and patterns (src/models.py) -/

/-- Words are lists of characters (Python str values). -/
abbrev Word := List Char

/-- Function matches_pattern of src/models.py: length check, then a
positionwise comparison of the uppercased word against the uppercased
pattern, where a dot matches anything. -/
def matches_pattern (word pattern : Word) : Bool :=
  if word.length ≠ pattern.length then false
  else ((word.map Char.toUpper).zip (pattern.map Char.toUpper)).all
    (fun wp => wp.2 = '.' || wp.1 = wp.2)

/-- Dataclass WordSlot.  The cells list is the one computed by
__post_init__ from start and direction. -/
structure WordSlot where
  start_row : Nat
  start_col : Nat
  direction : Direction
  length : Nat
  number : Option Nat
  cells : List (Nat × Nat)
deriving Repr, DecidableEq

/-- Method WordSlot._calculate_cells. -/
def calculateCells (start_row start_col : Nat) (dir : Direction) (length : Nat) :
    List (Nat × Nat) :=
  (List.range length).map (fun i =>
    match dir with
    | Direction.across => (start_row, start_col + i)
    | Direction.down => (start_row + i, start_col))

/-- Constructor WordSlot(...) followed by __post_init__. -/
def mkSlot (start_row start_col : Nat) (dir : Direction) (length : Nat)
    (number : Option Nat) : WordSlot :=
  { start_row := start_row, start_col := start_col, direction := dir,
    length := length, number := number,
    cells := calculateCells start_row start_col dir length }

/-- Default slot used to totalize list reads that are always in range in
the Python code. -/
def defaultSlot : WordSlot := mkSlot 0 0 Direction.across 0 none

/-- Method WordSlot.get_pattern: a dot for a cell without a letter.  The
cell coordinates of a slot are inside the grid by construction, so the
out-of-range default never arises on grids built by the pipeline. -/
def WordSlot.get_pattern (s : WordSlot) (g : Grid) : Word :=
  s.cells.map (fun rc =>
    match g.cellAt rc.1 rc.2 with
    | some cell =>
      match cell.letter with
      | some l => l
      | none => '.'
    | none => '.')

/-- Method WordSlot.overlaps_with: the first pair of indices (scanning
self outer, other inner, as the Python nested loops do) at which the two
slots share a cell. -/
def WordSlot.overlaps_with (s o : WordSlot) : Option (Nat × Nat) :=
  s.cells.enum.findSome? (fun ip =>
    o.cells.enum.findSome? (fun jq =>
      if ip.2 = jq.2 then some (ip.1, jq.1) else none))

/-- Length of the across run of non-block cells starting at (row, col),
the inner counting loop of Grid.find_word_slots. -/
def runLenAcross (g : Grid) (row col : Nat) : Nat :=
  ((List.range' col (g.size - col)).takeWhile (fun c => ¬ g.blockAt row c)).length

/-- Length of the down run of non-block cells starting at (row, col). -/
def runLenDown (g : Grid) (row col : Nat) : Nat :=
  ((List.range' row (g.size - row)).takeWhile (fun r => ¬ g.blockAt r col)).length

/-- Row-major scan positions of an n × n grid. -/
def gridPositions (n : Nat) : List (Nat × Nat) :=
  (List.range n).flatMap (fun r => (List.range n).map (fun c => (r, c)))

/-- Method Grid.find_word_slots: the row-major scan collecting across
and down slots of length at least 3 and numbering start cells.  The
write of the number into the grid cell (used only by the renderers) is
not modelled; the numbers carried by the returned slots are. -/
def Grid.find_word_slots (g : Grid) : List WordSlot :=
  ((gridPositions g.size).foldl (fun acc rc =>
    let (slots, number) := acc
    let (row, col) := rc
    if g.blockAt row col then acc
    else
      let acrossLen := runLenAcross g row col
      let starts_across := ((col == 0) || g.blockAt row (col - 1)) && decide (acrossLen ≥ 3)
      let slots1 := if starts_across
        then slots ++ [mkSlot row col Direction.across acrossLen (some number)]
        else slots
      let downLen := runLenDown g row col
      let starts_down := ((row == 0) || g.blockAt (row - 1) col) && decide (downLen ≥ 3)
      let slots2 := if starts_down
        then slots1 ++ [mkSlot row col Direction.down downLen (some number)]
        else slots1
      let number2 := if starts_across || starts_down then number + 1 else number
      (slots2, number2)) ([], 1)).1

/-! ## CrosswordCSP (src/csp_solver.py) -/

/-- Lookup of a length bucket of words_by_length (a defaultdict of
sets); absent keys read as the empty set. -/
def wlGet (m : List (Nat × List Word)) (k : Nat) : List Word :=
  match m.find? (fun p => p.1 = k) with
  | some p => p.2
  | none => []

/-- Write of a whole bucket. -/
def wlSet (m : List (Nat × List Word)) (k : Nat) (ws : List Word) :
    List (Nat × List Word) :=
  match m with
  | [] => [(k, ws)]
  | p :: rest => if p.1 = k then (k, ws) :: rest else p :: wlSet rest k ws

/-- Adding one word to a bucket with set semantics (set.add). -/
def wlAdd (m : List (Nat × List Word)) (k : Nat) (w : Word) :
    List (Nat × List Word) :=
  let bucket := wlGet m k
  if w ∈ bucket then m else wlSet m k (bucket ++ [w])

/-- Python set.update with a list of words (words_by_length refill). -/
def wlUpdate (m : List (Nat × List Word)) (k : Nat) (ws : List Word) :
    List (Nat × List Word) :=
  ws.foldl (fun acc w => wlAdd acc k w) m

/-- Static data of a CrosswordCSP instance: the grid, the slot list
(self.variables), the constraint graph (self.neighbors, each entry a
triple of neighbor index and the two crossing indices), and the optional
word generator callback.  Slots are identified by their index in the
variables list; the dictionaries keyed by WordSlot in Python become
lists parallel to variables. -/
structure CSP where
  grid : Grid
  vars : List WordSlot
  neighbors : List (List (Nat × Nat × Nat))
  word_generator : Option (Word → Nat → List Word)

/-- Mutable solver state: self.domains, self.words_by_length and
self.used_words.  Python sets of words are lists read with membership
semantics.  The statistics counters and log timestamps are not
modelled. -/
structure CSPState where
  domains : List (List Word)
  words_by_length : List (Nat × List Word)
  used_words : List Word
deriving Repr, DecidableEq

/-- Append of one directed entry to the adjacency list of slot k. -/
def appendAt (nb : List (List (Nat × Nat × Nat))) (k : Nat) (x : Nat × Nat × Nat) :
    List (List (Nat × Nat × Nat)) :=
  nb.set k (nb.getD k [] ++ [x])

/-- Method CrosswordCSP._build_constraint_graph: for every pair i < j of
slot indices in loop order, if the slots overlap, record the crossing in
both adjacency lists. -/
def buildConstraintGraph (vars : List WordSlot) : List (List (Nat × Nat × Nat)) :=
  let n := vars.length
  let pairs := (List.range n).flatMap (fun i =>
    (List.range' (i + 1) (n - (i + 1))).map (fun j => (i, j)))
  pairs.foldl (fun nb ij =>
    let (i, j) := ij
    match (vars.getD i defaultSlot).overlaps_with (vars.getD j defaultSlot) with
    | some ab => appendAt (appendAt nb i (j, ab.1, ab.2)) j (i, ab.2, ab.1)
    | none => nb) (List.replicate n [])

/-- Python str.isspace characters relevant to str.strip. -/
def isStripChar (c : Char) : Bool :=
  c = ' ' || c = '\t' || c = '\n' || c = '\r'

/-- Python word.upper().strip(). -/
def normWord (w : Word) : Word :=
  let u := w.map Char.toUpper
  ((u.dropWhile isStripChar).reverse.dropWhile isStripChar).reverse

/-- Constructor CrosswordCSP.__init__: find the slots, build the length
buckets from the word list (keeping only words of length at least 3),
set every domain to its length bucket, build the constraint graph, and
start with no used words. -/
def cspInit (grid : Grid) (word_list : List Word)
    (word_generator : Option (Word → Nat → List Word)) : CSP × CSPState :=
  let vars := grid.find_word_slots
  let wbl := word_list.foldl (fun m w =>
    let w2 := normWord w
    if w2.length ≥ 3 then wlAdd m w2.length w2 else m) []
  let domains := vars.map (fun slot => wlGet wbl slot.length)
  let neighbors := buildConstraintGraph vars
  ({ grid := grid, vars := vars, neighbors := neighbors,
     word_generator := word_generator },
   { domains := domains, words_by_length := wbl, used_words := [] })

/-- Method CrosswordCSP.enforce_node_consistency. -/
def enforceNodeConsistency (csp : CSP) (st : CSPState) : CSPState :=
  { st with domains := csp.vars.enum.map (fun p =>
      let pattern := p.2.get_pattern csp.grid
      if '.' ∈ pattern then
        (st.domains.getD p.1 []).filter (fun w => matches_pattern w pattern)
      else
        [pattern]) }

/-- Method CrosswordCSP.revise, acting on slot indices.  The removed-set
construction follows the Python code: words of domain(x) without a
distinct supporting partner in domain(y) are collected and subtracted;
the returned flag records whether that set is nonempty.  Character reads
word[i] are totalized with a placeholder default; every call performed
by the pipeline indexes within the word. -/
def revise (csp : CSP) (st : CSPState) (xi yi : Nat) : CSPState × Bool :=
  let slotX := csp.vars.getD xi defaultSlot
  let slotY := csp.vars.getD yi defaultSlot
  match slotX.overlaps_with slotY with
  | none => (st, false)
  | some idx =>
    let domX := st.domains.getD xi []
    let domY := st.domains.getD yi []
    let words_to_remove := domX.filter (fun word_x =>
      let char_needed := word_x.getD idx.1 '?'
      ! domY.any (fun word_y =>
          decide (word_y ≠ word_x) && decide (word_y.getD idx.2 '?' = char_needed)))
    let revised := ! words_to_remove.isEmpty
    let newDomX := domX.filter (fun w => decide (w ∉ words_to_remove))
    ({ st with domains := st.domains.set xi newDomX }, revised)

/-- Arcs pushed back after a successful revision of slot x from arc
(x, y): one arc (neighbor, x) for every neighbor of x other than y. -/
def arcsBack (csp : CSP) (xi yi : Nat) : List (Nat × Nat) :=
  (csp.neighbors.getD xi []).filterMap (fun nb =>
    if nb.1 ≠ yi then some (nb.1, xi) else none)

/-- Method CrosswordCSP.ac3 on an explicit FIFO queue, with fuel; none
means the fuel ran out, so every terminating Python run is modelled by
a sufficiently large fuel.  On an emptied domain the optional word
generator is consulted exactly as in the source: its words are filtered
against used_words (after uppercasing), a nonempty survivor list
replaces the domain and is added to the length bucket, otherwise the
call reports failure. -/
def ac3Fuel (csp : CSP) : Nat → CSPState → List (Nat × Nat) → Option (CSPState × Bool)
  | 0, _, _ => none
  | fuel + 1, st, queue =>
    match queue with
    | [] => some (st, true)
    | (xi, yi) :: rest =>
      let r := revise csp st xi yi
      let st1 := r.1
      if r.2 then
        if (st1.domains.getD xi []).isEmpty then
          match csp.word_generator with
          | some gen =>
            let slotX := csp.vars.getD xi defaultSlot
            let pattern := slotX.get_pattern csp.grid
            let new_words := gen pattern 20
            if new_words.isEmpty then some (st1, false)
            else
              let valid_new := new_words.filter
                (fun w => decide ((w.map Char.toUpper) ∉ st1.used_words))
              if valid_new.isEmpty then some (st1, false)
              else
                let st2 := { st1 with
                  domains := st1.domains.set xi valid_new,
                  words_by_length :=
                    wlUpdate st1.words_by_length slotX.length valid_new }
                ac3Fuel csp fuel st2 (rest ++ arcsBack csp xi yi)
          | none => some (st1, false)
        else
          ac3Fuel csp fuel st1 (rest ++ arcsBack csp xi yi)
      else
        ac3Fuel csp fuel st1 rest

/-- Initial arc queue of CrosswordCSP.ac3 when called without arcs: one
directed arc (slot, neighbor) per adjacency entry, in slot order. -/
def defaultArcs (csp : CSP) : List (Nat × Nat) :=
  (List.range csp.vars.length).flatMap (fun i =>
    (csp.neighbors.getD i []).map (fun nb => (i, nb.1)))

/-- Assignments: the partial map slot → word of the search, one optional
word per slot index (the Python dict keyed by WordSlot). -/
abbrev Asg := List (Option Word)

/-- Selection key of CrosswordCSP.select_unassigned_variable: the Python
tuple (len(domains[v]), -len(neighbors[v])) compared lexicographically;
smaller means preferred. -/
def selKeyLt (csp : CSP) (st : CSPState) (v b : Nat) : Bool :=
  let dv := (st.domains.getD v []).length
  let db := (st.domains.getD b []).length
  let nv := (csp.neighbors.getD v []).length
  let nb := (csp.neighbors.getD b []).length
  decide (dv < db ∨ (dv = db ∧ nv > nb))

/-- Method CrosswordCSP.select_unassigned_variable: Python min over the
unassigned slots in variables order, which keeps the earliest slot among
those of minimal key. -/
def selectUnassigned (csp : CSP) (st : CSPState) (asg : Asg) : Option Nat :=
  let unassigned := (List.range csp.vars.length).filter
    (fun k => (asg.getD k none).isNone)
  match unassigned with
  | [] => none
  | u :: rest => some (rest.foldl (fun best v =>
      if selKeyLt csp st v best then v else best) u)

/-- Conflict count of method CrosswordCSP.order_domain_values: for each
unassigned neighbor, the number of its domain words clashing at the
crossing with the candidate word. -/
def countConflicts (csp : CSP) (st : CSPState) (asg : Asg) (si : Nat)
    (word : Word) : Nat :=
  (csp.neighbors.getD si []).foldl (fun acc nb =>
    if (asg.getD nb.1 none).isSome then acc
    else acc + (st.domains.getD nb.1 []).countP
      (fun nw => decide (nw.getD nb.2.2 '?' ≠ word.getD nb.2.1 '?'))) 0

/-- Stable insertion of an element after every earlier element that is
less than or equal to it. -/
def insertStable (le : Word → Word → Bool) (w : Word) : List Word → List Word
  | [] => [w]
  | x :: rest => if le w x then w :: x :: rest else x :: insertStable le w rest

/-- Stable sort by a total boolean preorder: the unique stable ordering,
which is what Python sorted computes. -/
def sortStable (le : Word → Word → Bool) : List Word → List Word
  | [] => []
  | x :: rest => insertStable le x (sortStable le rest)

/-- Method CrosswordCSP.order_domain_values: stable sort of the domain
by ascending conflict count (Python sorted, a stable sort).  The
iteration order of the underlying Python set is unspecified; the model
sorts the list in its stored order. -/
def orderDomainValues (csp : CSP) (st : CSPState) (si : Nat) (asg : Asg) :
    List Word :=
  sortStable (fun a b =>
      decide (countConflicts csp st asg si a ≤ countConflicts csp st asg si b))
    (st.domains.getD si [])

/-- Method CrosswordCSP.is_consistent: the word is not among the
assigned values, and agrees with every assigned neighbor at the
crossing. -/
def isConsistent (csp : CSP) (si : Nat) (word : Word) (asg : Asg) : Bool :=
  if word ∈ asg.filterMap id then false
  else (csp.neighbors.getD si []).all (fun nb =>
    match asg.getD nb.1 none with
    | some nw => decide (word.getD nb.2.1 '?' = nw.getD nb.2.2 '?')
    | none => true)

/-- Results of the backtracking search: the final solver state, the
assignment dict as mutated in place, and the Python return value. -/
abbrev BTRes := Option (CSPState × Asg × Option Asg)

/-- Instance assembled by hand: the default synthesis exceeds its size
limit on this nested product. -/
instance : DecidableEq (CSPState × Asg × Option Asg) :=
  fun a b => decidable_of_iff (a.1 = b.1 ∧ a.2 = b.2) Prod.ext_iff.symm

/-- Body of the backtrack loop for a single candidate word: consistency
check, commit, domain snapshot, optional AC-3 inference on the arcs into
the slot, recursion, and on failure the restoration of the snapshot and
the removal of the word from the assignment.  The recursive backtrack
call and the fueled AC-3 run are passed in as bt and inf so that the
fuel recursion of backtrackFuel stays structural. -/
def tryValueGo (csp : CSP) (ui : Bool) (bt : CSPState → Asg → BTRes)
    (inf : CSPState → List (Nat × Nat) → Option (CSPState × Bool))
    (st : CSPState) (asg : Asg) (slot : Nat) (word : Word) : BTRes :=
  if isConsistent csp slot word asg then
    let asg1 := asg.set slot (some word)
    let saved_domains := st.domains
    let infRes : Option (CSPState × Bool) :=
      if ui then
        inf { st with domains := st.domains.set slot [word] }
          ((csp.neighbors.getD slot []).map (fun nb => (nb.1, slot)))
      else some (st, true)
    match infRes with
    | none => none
    | some (st1, inference_ok) =>
      let afterRec : BTRes :=
        if inference_ok then bt st1 asg1
        else some (st1, asg1, none)
      match afterRec with
      | none => none
      | some (st2, asg2, some result) => some (st2, asg2, some result)
      | some (st2, asg2, none) =>
        let asg3 := asg2.set slot none
        let st3 := if ui then { st2 with domains := saved_domains } else st2
        some (st3, asg3, none)
  else
    some (st, asg, none)

/-- Loop of backtrack over the ordered candidate words of the chosen
slot. -/
def tryWordsGo (csp : CSP) (ui : Bool) (bt : CSPState → Asg → BTRes)
    (inf : CSPState → List (Nat × Nat) → Option (CSPState × Bool))
    (slot : Nat) : CSPState → Asg → List Word → BTRes
  | st, asg, [] => some (st, asg, none)
  | st, asg, word :: rest =>
    match tryValueGo csp ui bt inf st asg slot word with
    | none => none
    | some (st2, asg2, some result) => some (st2, asg2, some result)
    | some (st2, asg2, none) => tryWordsGo csp ui bt inf slot st2 asg2 rest

/-- Method CrosswordCSP.backtrack with fuel (none = fuel ran out).  The
returned triple carries self.domains and the assignment dict after the
call together with the Python return value. -/
def backtrackFuel (csp : CSP) (ui : Bool) : Nat → CSPState → Asg → BTRes
  | 0, _, _ => none
  | f + 1, st, asg =>
    if (asg.filterMap id).length = csp.vars.length then some (st, asg, some asg)
    else
      match selectUnassigned csp st asg with
      | none => some (st, asg, some asg)
      | some slot =>
        tryWordsGo csp ui (fun st2 asg2 => backtrackFuel csp ui f st2 asg2)
          (fun st2 arcs => ac3Fuel csp f st2 arcs) slot st asg
          (orderDomainValues csp st slot asg)

/-- One value attempt inside backtrack, with the recursion instantiated
at a given fuel: the unit the backtrack-restoration claim is about. -/
def tryValue (csp : CSP) (ui : Bool) (fuel : Nat) (st : CSPState) (asg : Asg)
    (slot : Nat) (word : Word) : BTRes :=
  tryValueGo csp ui (fun st2 asg2 => backtrackFuel csp ui fuel st2 asg2)
    (fun st2 arcs => ac3Fuel csp fuel st2 arcs) st asg slot word

/-- Method CrosswordCSP.solve: node consistency, initial AC-3 over all
arcs, then backtracking search from the empty assignment.  The outer
none is fuel exhaustion; the inner option is the Python return value. -/
def solveFuel (csp : CSP) (st : CSPState) (ui : Bool) (fuel : Nat) :
    Option (CSPState × Option Asg) :=
  let st1 := enforceNodeConsistency csp st
  match ac3Fuel csp fuel st1 (defaultArcs csp) with
  | none => none
  | some (st2, false) => some (st2, none)
  | some (st2, true) =>
    match backtrackFuel csp ui fuel st2 (List.replicate csp.vars.length none) with
    | none => none
    | some (st3, _, result) => some (st3, result)

/-! ## AIWordGenerator (src/ai_word_generator.py) -/

/-- Model of the Anthropic client: a pure oracle mapping the system and
user prompts to the response text and the token count reported by the
API.  Python strings are modelled as character lists, as in the solver
module.  The exception path of the Python request (network failure) is
not modelled; an oracle always answers. -/
abbrev Oracle := Word → Word → (Word × Nat)

/-- State of an AIWordGenerator: the optional client, the limiter, the
pattern word cache and the stats counters.  The clue and theme caches,
the prompt loader (modelled as absent, so the inline prompt branch is
taken) and the logger are not needed by the settled claims.  -/
structure GenState where
  client : Option Oracle
  limiter : Limiter
  word_cache : List (Word × List Word)
  stats_api_calls : Nat
  stats_cache_hits : Nat
  stats_words_generated : Nat
  stats_tokens_used : Nat

/-- Lookup in the pattern cache. -/
def cacheGet (m : List (Word × List Word)) (k : Word) : Option (List Word) :=
  match m.find? (fun p => p.1 = k) with
  | some p => some p.2
  | none => none

/-- Write to the pattern cache. -/
def cacheSet (m : List (Word × List Word)) (k : Word) (v : List Word) :
    List (Word × List Word) :=
  match m with
  | [] => [(k, v)]
  | p :: rest => if p.1 = k then (k, v) :: rest else p :: cacheSet rest k v

/-- Method AIWordGenerator._make_request: no client means None; a
refused limiter means None without recording; otherwise the api_calls
counter is bumped, the oracle is consulted, the tokens are accounted and
the call is recorded as a success. -/
def makeRequest (g : GenState) (prompt_type : String)
    (system_prompt user_prompt : Word) : GenState × Option Word :=
  match g.client with
  | none => (g, none)
  | some oracle =>
    if ! g.limiter.can_call prompt_type then (g, none)
    else
      let g1 := { g with stats_api_calls := g.stats_api_calls + 1 }
      let tr := oracle system_prompt user_prompt
      let g2 := { g1 with
        stats_tokens_used := g1.stats_tokens_used + tr.2,
        limiter := g1.limiter.record_call prompt_type tr.2 true none }
      (g2, some tr.1)

/-- Method AIWordGenerator._matches_pattern (no case folding, unlike the
module-level matches_pattern of src/models.py). -/
def aiMatchesPattern (word pattern : Word) : Bool :=
  if word.length ≠ pattern.length then false
  else (word.zip pattern).all (fun wp => wp.2 = '.' || wp.1 = wp.2)

/-- Python str.strip: whitespace removed from both ends. -/
def pyStrip (w : Word) : Word :=
  ((w.dropWhile isStripChar).reverse.dropWhile isStripChar).reverse

/-- Python str.split(sep) for a one-character separator: empty pieces
are kept. -/
def splitOnChar (c : Char) (w : Word) : List Word :=
  w.foldr
    (fun ch acc =>
      if ch = c then [] :: acc
      else (ch :: acc.headD []) :: acc.tail)
    [[]]

/-- Method AIWordGenerator._build_pattern_prompts.  The prompt strings
only feed the oracle; the model keeps their inputs but abbreviates the
literal surrounding text. -/
def buildPatternPrompts (pattern : Word) (length : Nat) (theme : Option Word)
    (used_words : List Word) (count : Nat) : Word × Word :=
  let theme_hint := match theme with
    | some t => " related to ".toList ++ t
    | none => []
  let system_prompt := "You are a crossword puzzle word expert.".toList ++ theme_hint
  let used_list := match used_words with
    | [] => "none".toList
    | _ => List.intercalate ", ".toList (used_words.take 20)
  let user_prompt := "Pattern: ".toList ++ pattern ++
    " of length ".toList ++ (Nat.repr length).toList ++
    " avoiding ".toList ++ used_list ++
    " count ".toList ++ (Nat.repr count).toList
  (system_prompt, user_prompt)

/-- Method AIWordGenerator._parse_pattern_response, fallback line
parser: each stripped line is uppercased, non-letters are dropped, and
the word is kept when it has the pattern length, matches the pattern and
is not among the used words.  The YAML branch never applies to the plain
responses considered here and is not modelled. -/
def parsePatternResponse (text pattern : Word) (used_words : List Word) :
    List Word :=
  (splitOnChar '\n' (pyStrip text)).filterMap (fun line =>
    let word := (pyStrip line).map Char.toUpper
    let word := word.filter (fun c => decide ('A' ≤ c ∧ c ≤ 'Z'))
    if word.length = pattern.length && aiMatchesPattern word pattern
        && decide (word ∉ used_words) then some word
    else none)

/-- Method AIWordGenerator.get_words_matching_pattern: cache probe with
exclusion filter (a fully excluded entry falls through), then the client
check, the prompt build, the limited request, and the parse of the
response; a nonempty parse is cached and counted. -/
def getWordsMatchingPattern (g : GenState) (pattern : Word) (count : Nat)
    (theme : Option Word) (used_words : List Word) : GenState × List Word :=
  let pattern := pattern.map Char.toUpper
  let cache_key := pattern ++ (':' :: (match theme with | some t => t | none => []))
  let hit : Option (List Word) :=
    match cacheGet g.word_cache cache_key with
    | some cached =>
      let available := cached.filter
        (fun w => decide ((w.map Char.toUpper) ∉ used_words))
      if available.isEmpty then none else some available
    | none => none
  match hit with
  | some available =>
    ({ g with stats_cache_hits := g.stats_cache_hits + 1 }, available.take count)
  | none =>
    match g.client with
    | none => (g, [])
    | some _ =>
      let prompts := buildPatternPrompts pattern pattern.length theme used_words count
      let res := makeRequest g "pattern_word_generation" prompts.1 prompts.2
      let g1 := res.1
      match res.2 with
      | none => (g1, [])
      | some text =>
        if text = [] then (g1, [])
        else
          let words := parsePatternResponse text pattern used_words
          if words.isEmpty then (g1, words.take count)
          else
            ({ g1 with
                stats_words_generated := g1.stats_words_generated + words.length,
                word_cache := cacheSet g1.word_cache cache_key words },
             words.take count)

/-! ## Statements of spec-side notions used by the claims -/

/-- Symmetry invariant of a grid: a cell is a block exactly when its
180-degree mirror is. -/
def Grid.symmetric (g : Grid) : Prop :=
  ∀ r, r < g.size → ∀ c, c < g.size →
    (g.blockAt r c ↔ g.blockAt (g.size - 1 - r) (g.size - 1 - c))

/-- Modelled from the spec: the number of unassigned neighbors of a
slot, the degree used by the variable-selection tiebreak as the spec
words it (the code uses the total neighbor count instead). -/
def specUnassignedDegree (csp : CSP) (asg : Asg) (v : Nat) : Nat :=
  (csp.neighbors.getD v []).countP (fun nb => (asg.getD nb.1 none).isNone)

/-- Injectivity of an assignment: no two distinct slots carry the same
word. -/
def InjAsg (asg : Asg) : Prop :=
  ∀ i j w, i ≠ j → asg.getD i none = some w → asg.getD j none = some w → False

/-! ## Concrete instances used by witnesses and counterexamples -/

/-- The 3 × 3 grid with blocks in the four corners (two set_block calls
through the pipeline): exactly one across slot and one down slot, which
cross at the center. -/
def cornerGrid : Grid :=
  match applyBlocks (mkGrid 3) [(0, 0), (0, 2)] with
  | .ok g => g
  | .error g => g

/-- The 3 × 3 grid with blocks at (0,1) and its mirror (2,1): two down
slots and one across slot crossing both. -/
def degGrid : Grid :=
  match applyBlocks (mkGrid 3) [(0, 1)] with
  | .ok g => g
  | .error g => g

def wABA : Word := ['A', 'B', 'A']

def wCBC : Word := ['C', 'B', 'C']

def wCAT : Word := ['C', 'A', 'T']

def wBAT : Word := ['B', 'A', 'T']

def wACE : Word := ['A', 'C', 'E']

/-- CSP on cornerGrid with the single word ABA and a generator that
returns CBC: an AC-3 refill occurs and a domain grows. -/
def csp4 : CSP := (cspInit cornerGrid [wABA] (some (fun _ _ => [wCBC]))).1

def st4 : CSPState := (cspInit cornerGrid [wABA] (some (fun _ _ => [wCBC]))).2

/-- CSP on degGrid with one word: used to exhibit the selection
tiebreak. -/
def csp5 : CSP := (cspInit degGrid [wACE] none).1

def st5 : CSPState := (cspInit degGrid [wACE] none).2

/-- Assignment with the first down slot of degGrid assigned. -/
def asg5 : Asg := [some wACE, none, none]

/-- Solvable CSP on cornerGrid: CAT across, BAT down, crossing at the
shared letter A. -/
def csp1 : CSP := (cspInit cornerGrid [wCAT, wBAT] none).1

def st1 : CSPState := (cspInit cornerGrid [wCAT, wBAT] none).2

/-- Final solver state of the csp1 run. -/
def st1Final : CSPState :=
  { domains := [[wCAT], [wBAT]], words_by_length := [(3, [wCAT, wBAT])],
    used_words := [] }

/-- Solution assignment of the csp1 run. -/
def asg1Final : Asg := [some wCAT, some wBAT]

/-- Unsolvable CSP on cornerGrid: with a single word, the uniqueness
constraint forbids completing both slots. -/
def csp2 : CSP := (cspInit cornerGrid [wABA] none).1

def st2 : CSPState := (cspInit cornerGrid [wABA] none).2

/-- Grid reached from mkGrid 2 by set_block(0,0): blocks at (0,0) and
the mirror (1,1). -/
def gBlocked2 : Grid :=
  { size := 2,
    cells :=
      [[{ row := 0, col := 0, cell_type := CellType.block },
        { row := 0, col := 1 }],
       [{ row := 1, col := 0 },
        { row := 1, col := 1, cell_type := CellType.block }]] }

/-- State in which set_block(-1, 0) on mkGrid 2 raises: the primary
write has wrapped to row 1 and survived, the mirror write failed. -/
def gHalfBlocked2 : Grid :=
  { size := 2,
    cells :=
      [[{ row := 0, col := 0 },
        { row := 0, col := 1 }],
       [{ row := 1, col := 0, cell_type := CellType.block },
        { row := 1, col := 1 }]] }

/-- Word ABC used by the generator cache instances. -/
def wABC : Word := ['A', 'B', 'C']

/-- Generator state holding a cache entry for pattern ABC with no theme,
with a live client whose oracle answers with an empty response. -/
def gen8 : GenState :=
  { client := some (fun _ _ => ([], 0)),
    limiter := Limiter.fresh 50 [],
    word_cache := [(wABC ++ [':'], [wABC])],
    stats_api_calls := 0, stats_cache_hits := 0,
    stats_words_generated := 0, stats_tokens_used := 0 }

/-- State after the refill run of ac3 on csp4: the first domain was
refilled with CBC by the generator. -/
def st4X : CSPState :=
  { domains := [[wCBC], [wABA]], words_by_length := [(3, [wABA, wCBC])],
    used_words := [] }

/-- State after the failing ac3 run on csp2 (no generator): the first
domain was emptied and ac3 reported failure. -/
def st2Empty : CSPState :=
  { domains := [[], [wABA]], words_by_length := [(3, [wABA])],
    used_words := [] }

/-! ## Theorems: the call limiter (C9) -/

lemma lookupD_cons (p : String × Nat) (m : List (String × Nat)) (k : String)
    (d : Nat) : lookupD (p :: m) k d = if p.1 = k then p.2 else lookupD m k d := by
  by_cases h : p.1 = k <;> simp [lookupD, List.find?, h]

lemma lookupD_assocSet_self (m : List (String × Nat)) (k : String) (v d : Nat) :
    lookupD (assocSet m k v) k d = v := by
  induction m with
  | nil => simp [assocSet, lookupD_cons, lookupD]
  | cons p rest ih =>
    by_cases hp : p.1 = k
    · simp [assocSet, hp, lookupD_cons]
    · simp [assocSet, hp, lookupD_cons, ih]

lemma lookupD_assocSet_ne (m : List (String × Nat)) (k k2 : String) (v d : Nat)
    (h : k2 ≠ k) : lookupD (assocSet m k v) k2 d = lookupD m k2 d := by
  induction m with
  | nil => simp [assocSet, lookupD_cons, lookupD, Ne.symm h]
  | cons p rest ih =>
    by_cases hp : p.1 = k
    · simp [assocSet, hp, lookupD_cons, Ne.symm h]
    · simp [assocSet, hp, lookupD_cons, ih]

lemma can_call_true_bounds (l : Limiter) (pt : String)
    (h : l.can_call pt = true) :
    l.total_calls < l.max_total ∧
    lookupD l.counts pt 0 < lookupD l.limits pt l.max_total := by
  unfold Limiter.can_call at h
  split_ifs at h with h1 h2
  exact ⟨by omega, by omega⟩

lemma withinLimits_step (l : Limiter) (op : LimiterOp)
    (h : l.withinLimits) : (LimiterOp.step l op).withinLimits := by
  cases op with
  | reset =>
    refine ⟨?_, ?_⟩ <;> simp [LimiterOp.step, Limiter.reset, lookupD]
  | guardedRecord pt tok suc pat =>
    simp only [LimiterOp.step]
    by_cases hc : l.can_call pt
    · obtain ⟨h1, h2⟩ := can_call_true_bounds l pt hc
      rw [if_pos hc]
      refine ⟨?_, ?_⟩
      · simp only [Limiter.record_call]
        omega
      · intro pt2
        by_cases hp : pt2 = pt
        · subst hp
          simp only [Limiter.record_call, lookupD_assocSet_self]
          omega
        · simp only [Limiter.record_call, lookupD_assocSet_ne _ _ _ _ _ hp]
          exact h.2 pt2
    · rw [if_neg hc]
      exact h

lemma withinLimits_run (l : Limiter) (ops : List LimiterOp)
    (h : l.withinLimits) : (l.run ops).withinLimits := by
  induction ops generalizing l with
  | nil => exact h
  | cons op rest ih => exact ih (LimiterOp.step l op) (withinLimits_step l op h)

/-- C9: starting from a freshly constructed AICallbackLimiter, after any
sequence of operations in which every record_call is performed only
immediately after a can_call of the same kind returned True, the total
number of recorded calls stays at most max_total, and the count of every
kind stays at most its per-kind limit, the limit defaulting to max_total
for kinds without an explicit entry. -/
theorem C9_limiter_within_limits (maxTotal : Nat) (limits : List (String × Nat))
    (ops : List LimiterOp) :
    ((Limiter.fresh maxTotal limits).run ops).withinLimits := by
  apply withinLimits_run
  refine ⟨Nat.zero_le _, ?_⟩
  intro pt
  simp [Limiter.fresh, lookupD]

/-! ## Theorems: the grid model (C6, C7, C10) -/

lemma pyIdx_coe (n r : Nat) (h : r < n) : pyIdx n (r : Int) = some r := by
  unfold pyIdx
  rw [if_pos (by omega)]
  simp

lemma pyIdx_some_bounds {n : Nat} {i : Int} {j : Nat} (h : pyIdx n i = some j) :
    -(n : Int) ≤ i ∧ i < (n : Int) := by
  unfold pyIdx at h
  split_ifs at h with h1 h2
  · omega
  · omega

lemma cellAt_eq_bind (g : Grid) (r c : Nat) :
    g.cellAt r c = (g.cells[r]?.bind (fun rowL => rowL[c]?)) := by
  unfold Grid.cellAt
  cases g.cells[r]? <;> rfl

lemma cellAt_isSome (g : Grid) (hwf : g.WF) (r c : Nat) (hr : r < g.size)
    (hc : c < g.size) : ∃ cell, g.cellAt r c = some cell := by
  have hr2 : r < g.cells.length := by rw [hwf.1]; exact hr
  have hrow : g.cells[r]? = some g.cells[r] := List.getElem?_eq_getElem hr2
  have hlen : g.cells[r].length = g.size := hwf.2 _ (List.getElem_mem hr2)
  have hc2 : c < g.cells[r].length := by rw [hlen]; exact hc
  refine ⟨g.cells[r][c], ?_⟩
  rw [cellAt_eq_bind, hrow]
  exact List.getElem?_eq_getElem hc2

lemma setCellType_inbounds (cells : List (List Cell)) (n : Nat)
    (hlen : cells.length = n) (hrow : ∀ rowL ∈ cells, rowL.length = n)
    (r c : Nat) (hr : r < n) (hc : c < n) (t : CellType) :
    ∃ cells2, setCellType cells (r : Int) (c : Int) t = some cells2 ∧
      cells2.length = n ∧ (∀ rowL ∈ cells2, rowL.length = n) ∧
      ∀ r2 c2 : Nat,
        (cells2[r2]?.bind (fun rowL => rowL[c2]?)) =
          if r2 = r ∧ c2 = c then
            (cells[r2]?.bind (fun rowL => rowL[c2]?)).map
              (fun cell => { cell with cell_type := t })
          else cells[r2]?.bind (fun rowL => rowL[c2]?) := by
  have hr2 : r < cells.length := by rw [hlen]; exact hr
  have hrowget : cells[r]? = some cells[r] := List.getElem?_eq_getElem hr2
  have hrowlen : cells[r].length = n := hrow _ (List.getElem_mem hr2)
  have hc2 : c < cells[r].length := by rw [hrowlen]; exact hc
  have hcget : cells[r][c]? = some cells[r][c] := List.getElem?_eq_getElem hc2
  refine ⟨cells.set r (cells[r].set c { cells[r][c] with cell_type := t }),
    ?_, by simpa using hlen, ?_, ?_⟩
  · unfold setCellType
    simp only [pyIdx_coe cells.length r hr2, hrowget,
      pyIdx_coe cells[r].length c hc2, hcget]
  · intro rowL hmem
    rcases List.mem_or_eq_of_mem_set hmem with hm | hm
    · exact hrow _ hm
    · subst hm
      simpa using hrowlen
  · intro r2 c2
    by_cases h1 : r2 = r
    · subst h1
      rw [List.getElem?_set_eq_of_lt _ hr2, hrowget]
      simp only [Option.some_bind]
      by_cases h2 : c2 = c
      · subst h2
        rw [List.getElem?_set_eq_of_lt _ hc2, hcget]
        simp [hrowget, hcget]
      · rw [List.getElem?_set_ne (fun h => h2 h.symm)]
        simp [h2, hrowget]
    · rw [List.getElem?_set_ne (fun h => h1 h.symm)]
      simp [h1]

lemma setCellType_some_shape {cells : List (List Cell)} {r c : Int}
    {t : CellType} {cells2 : List (List Cell)}
    (h : setCellType cells r c t = some cells2) :
    (-(cells.length : Int) ≤ r ∧ r < (cells.length : Int)) ∧
    (∃ rowL ∈ cells, -(rowL.length : Int) ≤ c ∧ c < (rowL.length : Int)) ∧
    cells2.length = cells.length ∧
    ∀ rowL2 ∈ cells2, ∃ rowL ∈ cells, rowL2.length = rowL.length := by
  unfold setCellType at h
  cases hpy : pyIdx cells.length r with
  | none => simp only [hpy] at h; exact Option.noConfusion h
  | some ri =>
    simp only [hpy] at h
    cases hrow : cells[ri]? with
    | none => simp only [hrow] at h; exact Option.noConfusion h
    | some rowL =>
      simp only [hrow] at h
      cases hpy2 : pyIdx rowL.length c with
      | none => simp only [hpy2] at h; exact Option.noConfusion h
      | some ci =>
        simp only [hpy2] at h
        cases hcell : rowL[ci]? with
        | none => simp only [hcell] at h; exact Option.noConfusion h
        | some cell =>
          simp only [hcell] at h
          have h2 := Option.some.inj h
          have hmem0 : rowL ∈ cells := by
            obtain ⟨hlt, hEq⟩ := List.getElem?_eq_some.mp hrow
            exact hEq ▸ List.getElem_mem hlt
          refine ⟨pyIdx_some_bounds hpy, ⟨rowL, hmem0, pyIdx_some_bounds hpy2⟩, ?_, ?_⟩
          · rw [← h2]; simp
          · intro rowL2 hmem
            rw [← h2] at hmem
            rcases List.mem_or_eq_of_mem_set hmem with hm | hm
            · exact ⟨rowL2, hm, rfl⟩
            · subst hm
              exact ⟨rowL, hmem0, by simp⟩

lemma set_block_inbounds (g : Grid) (hwf : g.WF) (r c : Nat)
    (hr : r < g.size) (hc : c < g.size) :
    ∃ g2 : Grid, g.set_block (r : Int) (c : Int) = .ok g2 ∧
      g2.size = g.size ∧ g2.WF ∧
      ∀ r2 c2 : Nat, g2.cellAt r2 c2 =
        if (r2 = r ∧ c2 = c) ∨ (r2 = g.size - 1 - r ∧ c2 = g.size - 1 - c) then
          (g.cellAt r2 c2).map (fun cell => { cell with cell_type := CellType.block })
        else g.cellAt r2 c2 := by
  obtain ⟨cells1, e1, l1, w1, p1⟩ :=
    setCellType_inbounds g.cells g.size hwf.1 hwf.2 r c hr hc .block
  have hmr : g.size - 1 - r < g.size := by omega
  have hmc : g.size - 1 - c < g.size := by omega
  obtain ⟨cells2, e2, l2, w2, p2⟩ :=
    setCellType_inbounds cells1 g.size l1 w1 (g.size - 1 - r) (g.size - 1 - c)
      hmr hmc .block
  refine ⟨{ g with cells := cells2 }, ?_, rfl, ⟨l2, w2⟩, ?_⟩
  · unfold Grid.set_block
    have hcr : (g.size : Int) - 1 - (r : Int) = ((g.size - 1 - r : Nat) : Int) := by
      omega
    have hcc : (g.size : Int) - 1 - (c : Int) = ((g.size - 1 - c : Nat) : Int) := by
      omega
    simp only [e1, hcr, hcc, e2]
  · intro r2 c2
    have hA := p1 r2 c2
    have hB := p2 r2 c2
    rw [cellAt_eq_bind] at *
    simp only at hB
    rw [hB, hA]
    rw [cellAt_eq_bind g r2 c2]
    by_cases h1 : r2 = r ∧ c2 = c <;> by_cases h2 : r2 = g.size - 1 - r ∧ c2 = g.size - 1 - c
    · rw [if_pos h1, if_pos h2, if_pos (Or.inl h1)]
      cases g.cells[r2]?.bind (fun rowL => rowL[c2]?) <;> rfl
    · rw [if_pos h1, if_neg h2, if_pos (Or.inl h1)]
    · rw [if_neg h1, if_pos h2, if_pos (Or.inr h2)]
    · rw [if_neg h1, if_neg h2, if_neg (by tauto)]

/-- C10: for every well-formed grid and in-bounds cell (r, c), set_block
succeeds and changes exactly the cell_type of the cell at (r, c) and of
its mirror (N-1-r, N-1-c), setting both to Block; every other cell is
unchanged, and the letter and number fields of the two changed cells are
preserved. -/
theorem C10_set_block_frame (g g2 : Grid) (r c : Nat) (hwf : g.WF)
    (hr : r < g.size) (hc : c < g.size)
    (hok : g.set_block (r : Int) (c : Int) = .ok g2) :
    g2.size = g.size ∧
    (∀ r2 c2 : Nat,
      ((r2 = r ∧ c2 = c) ∨ (r2 = g.size - 1 - r ∧ c2 = g.size - 1 - c)) →
      g2.cellAt r2 c2 =
        (g.cellAt r2 c2).map (fun cell => { cell with cell_type := CellType.block })) ∧
    (∀ r2 c2 : Nat,
      ¬((r2 = r ∧ c2 = c) ∨ (r2 = g.size - 1 - r ∧ c2 = g.size - 1 - c)) →
      g2.cellAt r2 c2 = g.cellAt r2 c2) ∧
    (∀ r2 c2 : Nat,
      (g2.cellAt r2 c2).map Cell.letter = (g.cellAt r2 c2).map Cell.letter ∧
      (g2.cellAt r2 c2).map Cell.number = (g.cellAt r2 c2).map Cell.number) := by
  obtain ⟨g2', e, hsz, _, p⟩ := set_block_inbounds g hwf r c hr hc
  rw [hok] at e
  cases e
  refine ⟨hsz, ?_, ?_, ?_⟩
  · intro r2 c2 hhit
    rw [p r2 c2, if_pos hhit]
  · intro r2 c2 hmiss
    rw [p r2 c2, if_neg hmiss]
  · intro r2 c2
    rw [p r2 c2]
    by_cases hhit : (r2 = r ∧ c2 = c) ∨ (r2 = g.size - 1 - r ∧ c2 = g.size - 1 - c)
    · rw [if_pos hhit]
      cases g.cellAt r2 c2 <;> simp
    · rw [if_neg hhit]
      exact ⟨rfl, rfl⟩

lemma mkGrid_WF (n : Nat) : (mkGrid n).WF := by
  constructor
  · simp [mkGrid]
  · intro rowL hmem
    simp only [mkGrid, List.mem_map] at hmem
    obtain ⟨r, _, hr⟩ := hmem
    subst hr
    simp [mkGrid]

/-- Witness for C10 at the concrete input mkGrid 2 and (0, 0). -/
theorem C10_set_block_frame_witness :
    (mkGrid 2).WF ∧ (mkGrid 2).set_block 0 0 = .ok gBlocked2 ∧
    gBlocked2.cellAt 0 1 = (mkGrid 2).cellAt 0 1 ∧
    (gBlocked2.cellAt 0 0).map Cell.letter = ((mkGrid 2).cellAt 0 0).map Cell.letter := by
  have hwf : (mkGrid 2).WF := mkGrid_WF 2
  have hok : (mkGrid 2).set_block ((0 : Nat) : Int) ((0 : Nat) : Int) = .ok gBlocked2 := by
    rfl
  have h := C10_set_block_frame (mkGrid 2) gBlocked2 0 0 hwf (by decide) (by decide) hok
  exact ⟨hwf, hok, h.2.2.1 0 1 (by decide), (h.2.2.2 0 0).1⟩

lemma blockAt_eq_bind (g : Grid) (r c : Nat) :
    g.blockAt r c = ((g.cellAt r c).map
      (fun cell => decide (cell.cell_type = CellType.block))).getD false := by
  unfold Grid.blockAt
  cases g.cellAt r c <;> rfl

lemma symmetric_preserved (g g2 : Grid) (hwf : g.WF) (hsym : g.symmetric)
    (r c : Nat) (hr : r < g.size) (hc : c < g.size)
    (hok : g.set_block (r : Int) (c : Int) = .ok g2) : g2.symmetric := by
  obtain ⟨g2', e, hsz, hwf2, p⟩ := set_block_inbounds g hwf r c hr hc
  rw [hok] at e
  cases e
  intro r2 hr2 c2 hc2
  rw [hsz] at hr2 hc2
  have hmir : ∀ a b : Nat, a < g.size → b < g.size →
      ((a = r ∧ b = c) ∨ (a = g.size - 1 - r ∧ b = g.size - 1 - c)) →
      ((g.size - 1 - a = r ∧ g.size - 1 - b = c) ∨
       (g.size - 1 - a = g.size - 1 - r ∧ g.size - 1 - b = g.size - 1 - c)) := by
    intro a b ha hb hab
    rcases hab with ⟨h1, h2⟩ | ⟨h1, h2⟩
    · exact Or.inr ⟨by omega, by omega⟩
    · exact Or.inl ⟨by omega, by omega⟩
  by_cases hhit : (r2 = r ∧ c2 = c) ∨ (r2 = g.size - 1 - r ∧ c2 = g.size - 1 - c)
  · have hhit2 := hmir r2 c2 hr2 hc2 hhit
    obtain ⟨cell1, hc1⟩ := cellAt_isSome g hwf r2 c2 hr2 hc2
    obtain ⟨cell2, hc2s⟩ := cellAt_isSome g hwf (g.size - 1 - r2) (g.size - 1 - c2)
      (by omega) (by omega)
    rw [blockAt_eq_bind, blockAt_eq_bind, hsz, p r2 c2, if_pos hhit,
      p (g.size - 1 - r2) (g.size - 1 - c2), if_pos hhit2, hc1, hc2s]
    simp
  · have hhit2 : ¬((g.size - 1 - r2 = r ∧ g.size - 1 - c2 = c) ∨
        (g.size - 1 - r2 = g.size - 1 - r ∧ g.size - 1 - c2 = g.size - 1 - c)) := by
      intro hcon
      apply hhit
      have := hmir (g.size - 1 - r2) (g.size - 1 - c2) (by omega) (by omega) hcon
      rcases this with ⟨h1, h2⟩ | ⟨h1, h2⟩
      · exact Or.inl ⟨by omega, by omega⟩
      · exact Or.inr ⟨by omega, by omega⟩
    rw [blockAt_eq_bind, blockAt_eq_bind, hsz, p r2 c2, if_neg hhit,
      p (g.size - 1 - r2) (g.size - 1 - c2), if_neg hhit2,
      ← blockAt_eq_bind, ← blockAt_eq_bind]
    exact hsym r2 hr2 c2 hc2

lemma blockAt_mkGrid (n r c : Nat) : (mkGrid n).blockAt r c = false := by
  rw [blockAt_eq_bind, cellAt_eq_bind]
  unfold mkGrid
  simp only [List.getElem?_map]
  by_cases hr : r < n
  · rw [List.getElem?_range hr]
    simp only [Option.map_some', Option.some_bind, List.getElem?_map]
    by_cases hc : c < n
    · rw [List.getElem?_range hc]
      rfl
    · rw [List.getElem?_eq_none (by simpa using Nat.le_of_not_lt hc)]
      rfl
  · rw [List.getElem?_eq_none (by simpa using Nat.le_of_not_lt hr)]
    rfl

lemma applyBlocks_symmetric (n : Nat) (ops : List (Int × Int)) (g g2 : Grid)
    (hwf : g.WF) (hsz : g.size = n) (hsym : g.symmetric)
    (hb : ∀ p ∈ ops, 0 ≤ p.1 ∧ p.1 < (n : Int) ∧ 0 ≤ p.2 ∧ p.2 < (n : Int))
    (hap : applyBlocks g ops = .ok g2) : g2.symmetric := by
  induction ops generalizing g with
  | nil =>
    unfold applyBlocks at hap
    cases hap
    exact hsym
  | cons op rest ih =>
    obtain ⟨hop1, hop2, hop3, hop4⟩ := hb op (List.mem_cons_self op rest)
    have hr : op.1.toNat < g.size := by omega
    have hc : op.2.toNat < g.size := by omega
    obtain ⟨g1, e1, hsz1, hwf1, _⟩ := set_block_inbounds g hwf op.1.toNat op.2.toNat hr hc
    have hsym1 : g1.symmetric :=
      symmetric_preserved g g1 hwf hsym op.1.toNat op.2.toNat hr hc e1
    have e1' : g.set_block op.1 op.2 = .ok g1 := by
      rw [show op.1 = ((op.1.toNat : Nat) : Int) from by omega,
        show op.2 = ((op.2.toNat : Nat) : Int) from by omega]
      exact e1
    unfold applyBlocks at hap
    rw [show op = (op.1, op.2) from rfl, e1'] at hap
    exact ih g1 hwf1 (by omega) hsym1
      (fun p hp => hb p (List.mem_cons_of_mem op hp)) hap

/-- C6: starting from the all-open grid of size N, after every sequence
of in-bounds set_block calls the grid satisfies 180-degree rotational
symmetry: the cell at (r, c) is a block exactly when the cell at
(N-1-r, N-1-c) is. -/
theorem C6_set_block_symmetry (n : Nat) (ops : List (Int × Int)) (g2 : Grid)
    (hb : ∀ p ∈ ops, 0 ≤ p.1 ∧ p.1 < (n : Int) ∧ 0 ≤ p.2 ∧ p.2 < (n : Int))
    (hap : applyBlocks (mkGrid n) ops = .ok g2) : g2.symmetric := by
  refine applyBlocks_symmetric n ops (mkGrid n) g2 (mkGrid_WF n) (by simp [mkGrid])
    ?_ hb hap
  intro r _ c _
  rw [blockAt_mkGrid, blockAt_mkGrid]

/-- Witness for C6 on the 2 × 2 grid with the single call
set_block(0, 0). -/
theorem C6_set_block_symmetry_witness :
    (applyBlocks (mkGrid 2) [(0, 0)] = .ok gBlocked2) ∧ gBlocked2.symmetric := by
  have hap : applyBlocks (mkGrid 2) [(0, 0)] = .ok gBlocked2 := by rfl
  exact ⟨hap, C6_set_block_symmetry 2 [(0, 0)] gBlocked2 (by decide) hap⟩

/-- Counterexample to C7 as stated: the call set_block(-1, 0) on the
all-open 2 × 2 grid is out of bounds, yet it does not leave the grid
unchanged: the primary write wraps (Python negative indexing) and blocks
cell (1, 0) before the mirror write raises IndexError. -/
theorem C7_counterexample :
    (mkGrid 2).set_block (-1) 0 = .error gHalfBlocked2 ∧
    gHalfBlocked2 ≠ mkGrid 2 ∧ gHalfBlocked2.blockAt 1 0 = true := by
  refine ⟨by rfl, by decide, by rfl⟩

/-- C7 (amended): set_block on a well-formed grid with indices outside
[0, N) always fails, with a plain IndexError rather than a dedicated
OutOfBounds error (the method performs no bounds check and never calls
is_valid_position); the grid is left unchanged only when the primary
access itself is out of Python range, since a wrapped in-range primary
write survives the failing mirror write. -/
theorem C7_amended_out_of_range_raises (g : Grid) (hwf : g.WF) (r c : Int)
    (h : ¬(0 ≤ r ∧ r < (g.size : Int) ∧ 0 ≤ c ∧ c < (g.size : Int))) :
    ∃ e, g.set_block r c = .error e := by
  unfold Grid.set_block
  cases h1 : setCellType g.cells r c .block with
  | none => exact ⟨g, rfl⟩
  | some cells1 =>
    obtain ⟨⟨hb1, hb2⟩, ⟨rowL0, hrow0, hc1, hc2⟩, hlen1, hrows1⟩ :=
      setCellType_some_shape h1
    rw [hwf.1] at hb1 hb2
    rw [hwf.2 rowL0 hrow0] at hc1 hc2
    have hrows1n : ∀ rowL ∈ cells1, rowL.length = g.size := by
      intro rowL hm
      obtain ⟨rowL2, hm2, he⟩ := hrows1 rowL hm
      rw [he]
      exact hwf.2 _ hm2
    by_cases hneg : r < 0
    · have hpy : pyIdx cells1.length ((g.size : Int) - 1 - r) = none := by
        unfold pyIdx
        rw [if_neg (by rw [hlen1, hwf.1]; omega), if_neg (by rw [hlen1, hwf.1]; omega)]
      have h2 : setCellType cells1 ((g.size : Int) - 1 - r)
          ((g.size : Int) - 1 - c) .block = none := by
        unfold setCellType
        simp only [hpy]
      simp only [h2]
      exact ⟨_, rfl⟩
    · have hr0 : 0 ≤ r := by omega
      have hcneg : c < 0 := by omega
      have hpy : pyIdx cells1.length ((g.size : Int) - 1 - r) =
          some ((g.size : Int) - 1 - r).toNat := by
        unfold pyIdx
        rw [if_pos (by rw [hlen1, hwf.1]; omega)]
      have hlt : ((g.size : Int) - 1 - r).toNat < cells1.length := by
        rw [hlen1, hwf.1]
        omega
      have hget : cells1[((g.size : Int) - 1 - r).toNat]? =
          some cells1[((g.size : Int) - 1 - r).toNat] :=
        List.getElem?_eq_getElem hlt
      have hrowlen : cells1[((g.size : Int) - 1 - r).toNat].length = g.size :=
        hrows1n _ (List.getElem_mem hlt)
      have hpy2 : pyIdx cells1[((g.size : Int) - 1 - r).toNat].length
          ((g.size : Int) - 1 - c) = none := by
        unfold pyIdx
        rw [if_neg (by rw [hrowlen]; omega), if_neg (by rw [hrowlen]; omega)]
      have h2 : setCellType cells1 ((g.size : Int) - 1 - r)
          ((g.size : Int) - 1 - c) .block = none := by
        unfold setCellType
        simp only [hpy, hget, hpy2]
      simp only [h2]
      exact ⟨_, rfl⟩

/-- Witness for the amended C7 at the concrete input mkGrid 2 and
(-1, 0). -/
theorem C7_amended_witness :
    (mkGrid 2).WF ∧
    ¬(0 ≤ (-1 : Int) ∧ (-1 : Int) < ((mkGrid 2).size : Int) ∧
      0 ≤ (0 : Int) ∧ (0 : Int) < ((mkGrid 2).size : Int)) ∧
    ∃ e, (mkGrid 2).set_block (-1) 0 = .error e := by
  refine ⟨mkGrid_WF 2, by decide, ?_⟩
  exact C7_amended_out_of_range_raises (mkGrid 2) (mkGrid_WF 2) (-1) 0 (by decide)

/-! ## Theorems: revise (C3) -/

lemma getD_set_self (l : List α) (i : Nat) (a d : α) :
    (l.set i a).getD i d = if i < l.length then a else d := by
  by_cases h : i < l.length
  · rw [if_pos h, List.getD_eq_getElem?_getD, List.getElem?_set_eq_of_lt _ h]
    rfl
  · rw [if_neg h, List.set_eq_of_length_le (Nat.le_of_not_lt h),
      List.getD_eq_getElem?_getD, List.getElem?_eq_none (Nat.le_of_not_lt h)]
    rfl

lemma getD_set_ne (l : List α) {i j : Nat} (h : i ≠ j) (a d : α) :
    (l.set i a).getD j d = l.getD j d := by
  rw [List.getD_eq_getElem?_getD, List.getElem?_set_ne h, ← List.getD_eq_getElem?_getD]

/-- C3: given crossing slots x and y with crossing indices ix and iy,
revise(x, y) keeps in the domain of x exactly the words that have a
distinct supporting partner in the domain of y agreeing at the crossing,
leaves every other domain (in particular the domain of y) and the rest
of the state unchanged, and returns True exactly when at least one word
was removed. -/
theorem C3_revise_characterization (csp : CSP) (st : CSPState) (x y ix iy : Nat)
    (hov : (csp.vars.getD x defaultSlot).overlaps_with (csp.vars.getD y defaultSlot) =
      some (ix, iy))
    (_hlx : ∀ w ∈ st.domains.getD x [], ix < w.length)
    (_hly : ∀ w ∈ st.domains.getD y [], iy < w.length) :
    (∀ w : Word, w ∈ (revise csp st x y).1.domains.getD x [] ↔
      (w ∈ st.domains.getD x [] ∧
        ∃ w2 ∈ st.domains.getD y [], w2 ≠ w ∧ w.getD ix '?' = w2.getD iy '?')) ∧
    (∀ k, k ≠ x → (revise csp st x y).1.domains.getD k [] = st.domains.getD k []) ∧
    (revise csp st x y).1.words_by_length = st.words_by_length ∧
    (revise csp st x y).1.used_words = st.used_words ∧
    ((revise csp st x y).2 = true ↔
      ∃ w ∈ st.domains.getD x [], w ∉ (revise csp st x y).1.domains.getD x []) := by
  clear _hlx _hly
  simp only [revise, hov]
  set domX := st.domains.getD x [] with hdomX
  set domY := st.domains.getD y [] with hdomY
  set toRemove := domX.filter (fun word_x =>
    ! domY.any (fun word_y =>
      decide (word_y ≠ word_x) && decide (word_y.getD iy '?' = word_x.getD ix '?')))
    with hrm
  have hsupp : ∀ w : Word,
      (domY.any (fun word_y =>
        decide (word_y ≠ w) && decide (word_y.getD iy '?' = w.getD ix '?'))) = true ↔
      ∃ w2 ∈ domY, w2 ≠ w ∧ w.getD ix '?' = w2.getD iy '?' := by
    intro w
    rw [List.any_eq_true]
    constructor
    · rintro ⟨w2, hw2, hb⟩
      rw [Bool.and_eq_true, decide_eq_true_eq, decide_eq_true_eq] at hb
      exact ⟨w2, hw2, hb.1, hb.2.symm⟩
    · rintro ⟨w2, hw2, hne, hchar⟩
      refine ⟨w2, hw2, ?_⟩
      rw [Bool.and_eq_true, decide_eq_true_eq, decide_eq_true_eq]
      exact ⟨hne, hchar.symm⟩
  have hrem_iff : ∀ w : Word, w ∈ toRemove ↔
      w ∈ domX ∧ ¬ ∃ w2 ∈ domY, w2 ≠ w ∧ w.getD ix '?' = w2.getD iy '?' := by
    intro w
    rw [hrm, List.mem_filter]
    constructor
    · rintro ⟨hw, hb⟩
      rw [Bool.not_eq_true'] at hb
      refine ⟨hw, fun hex => ?_⟩
      have hc := (hsupp w).mpr hex
      rw [hb] at hc
      exact Bool.noConfusion hc
    · rintro ⟨hw, hnex⟩
      refine ⟨hw, ?_⟩
      rw [Bool.not_eq_true', Bool.eq_false_iff]
      intro hany
      exact hnex ((hsupp w).mp hany)
  have hkeep : ∀ w : Word, w ∈ domX.filter (fun w => decide (w ∉ toRemove)) ↔
      (w ∈ domX ∧ ∃ w2 ∈ domY, w2 ≠ w ∧ w.getD ix '?' = w2.getD iy '?') := by
    intro w
    rw [List.mem_filter, decide_eq_true_eq]
    constructor
    · rintro ⟨hw, hnr⟩
      refine ⟨hw, ?_⟩
      by_contra hno
      exact hnr ((hrem_iff w).mpr ⟨hw, hno⟩)
    · rintro ⟨hw, hex⟩
      refine ⟨hw, fun hmem => ?_⟩
      exact ((hrem_iff w).mp hmem).2 hex
  have hnewX : (st.domains.set x (domX.filter (fun w => decide (w ∉ toRemove)))).getD x [] =
      if x < st.domains.length then domX.filter (fun w => decide (w ∉ toRemove)) else [] :=
    getD_set_self _ _ _ _
  have hempty : ¬ x < st.domains.length → domX = [] := by
    intro hx
    rw [hdomX, List.getD_eq_getElem?_getD,
      List.getElem?_eq_none (Nat.le_of_not_lt hx)]
    rfl
  refine ⟨?_, ?_, by trivial, by trivial, ?_⟩
  · intro w
    simp only [hnewX]
    by_cases hx : x < st.domains.length
    · rw [if_pos hx]
      exact hkeep w
    · rw [if_neg hx, hempty hx]
      simp
  · intro k hk
    exact getD_set_ne _ (fun h => hk h.symm) _ _
  · constructor
    · intro hne
      have hne2 : toRemove ≠ [] := by simpa using hne
      obtain ⟨w, hw⟩ := List.exists_mem_of_ne_nil _ hne2
      have hx := (hrem_iff w).mp hw
      refine ⟨w, hx.1, ?_⟩
      intro hmem
      rw [hnewX] at hmem
      by_cases hxl : x < st.domains.length
      · rw [if_pos hxl] at hmem
        exact hx.2 ((hkeep w).mp hmem).2
      · rw [if_neg hxl] at hmem
        exact List.not_mem_nil w hmem
    · rintro ⟨w, hw, hnot⟩
      have hxl : x < st.domains.length := by
        by_contra hxl
        rw [hempty hxl] at hw
        exact List.not_mem_nil w hw
      have hsup : ¬ ∃ w2 ∈ domY, w2 ≠ w ∧ w.getD ix '?' = w2.getD iy '?' := by
        intro hex
        apply hnot
        rw [hnewX, if_pos hxl]
        exact (hkeep w).mpr ⟨hw, hex⟩
      have hmem : w ∈ toRemove := (hrem_iff w).mpr ⟨hw, hsup⟩
      simpa using List.ne_nil_of_mem hmem

/-- Witness for C3 on the solvable corner CSP, arc from the down slot to
the across slot. -/
theorem C3_revise_characterization_witness :
    ((csp1.vars.getD 0 defaultSlot).overlaps_with (csp1.vars.getD 1 defaultSlot) =
      some (1, 1)) ∧
    (revise csp1 st1 0 1).1.used_words = st1.used_words ∧
    (wCAT ∈ (revise csp1 st1 0 1).1.domains.getD 0 [] ↔
      (wCAT ∈ st1.domains.getD 0 [] ∧
        ∃ w2 ∈ st1.domains.getD 1 [], w2 ≠ wCAT ∧ wCAT.getD 1 '?' = w2.getD 1 '?')) := by
  have h := C3_revise_characterization csp1 st1 0 1 1 1 (by decide) (by decide) (by decide)
  exact ⟨by decide, h.2.2.2.1, h.1 wCAT⟩

/-! ## Theorems: AC-3 domain shrinkage (C4) -/

lemma revise_subset (csp : CSP) (st : CSPState) (x y k : Nat) :
    (revise csp st x y).1.domains.getD k [] ⊆ st.domains.getD k [] := by
  simp only [revise]
  cases hov : (csp.vars.getD x defaultSlot).overlaps_with (csp.vars.getD y defaultSlot) with
  | none => exact fun a ha => ha
  | some idx =>
    simp only
    by_cases hk : k = x
    · subst hk
      rw [getD_set_self]
      by_cases hx : k < st.domains.length
      · rw [if_pos hx]
        exact fun a ha => (List.mem_filter.mp ha).1
      · rw [if_neg hx]
        exact List.nil_subset _
    · rw [getD_set_ne _ (fun h => hk h.symm)]
      exact List.Subset.refl _

/-- C4 (amended): within one invocation of ac3 with no word generator
supplied, every slot domain only shrinks: the domain of each slot on
return is a subset of its domain on entry, and since every intermediate
state of the run is itself the entry of a recursive step, domains shrink
monotonically through the whole invocation.  When a word generator is
supplied this fails: an oracle refill replaces an emptied domain with
fresh generator words, which can grow it. -/
theorem C4_amended_ac3_shrinks_without_generator (csp : CSP)
    (hgen : csp.word_generator = none) (fuel : Nat) (st : CSPState)
    (q : List (Nat × Nat)) (st2 : CSPState) (b : Bool)
    (hrun : ac3Fuel csp fuel st q = some (st2, b)) :
    ∀ k, st2.domains.getD k [] ⊆ st.domains.getD k [] := by
  induction fuel generalizing st q with
  | zero => exact absurd hrun (by simp [ac3Fuel])
  | succ f ih =>
    cases q with
    | nil =>
      simp only [ac3Fuel, Option.some.injEq, Prod.mk.injEq] at hrun
      rw [hrun.1]
      exact fun k => List.Subset.refl _
    | cons arc rest =>
      obtain ⟨xi, yi⟩ := arc
      simp only [ac3Fuel, hgen] at hrun
      by_cases hrev : (revise csp st xi yi).2 = true
      · rw [if_pos hrev] at hrun
        by_cases hemp : ((revise csp st xi yi).1.domains.getD xi []).isEmpty = true
        · rw [if_pos hemp] at hrun
          rw [Option.some.injEq, Prod.mk.injEq] at hrun
          rw [← hrun.1]
          exact fun k => revise_subset csp st xi yi k
        · rw [if_neg hemp] at hrun
          intro k
          exact List.Subset.trans (ih _ _ hrun k) (revise_subset csp st xi yi k)
      · rw [if_neg hrev] at hrun
        intro k
        exact List.Subset.trans (ih _ _ hrun k) (revise_subset csp st xi yi k)

/-- Witness for the amended C4: the generator-free csp2 run, where the
emptied first domain makes ac3 report failure and every final domain is
a subset of the initial one. -/
theorem C4_amended_witness :
    csp2.word_generator = none ∧
    ac3Fuel csp2 5 st2 (defaultArcs csp2) = some (st2Empty, false) ∧
    st2Empty.domains.getD 1 [] ⊆ st2.domains.getD 1 [] := by
  have hrun : ac3Fuel csp2 5 st2 (defaultArcs csp2) = some (st2Empty, false) := by decide
  exact ⟨rfl, hrun,
    C4_amended_ac3_shrinks_without_generator csp2 rfl 5 st2 (defaultArcs csp2)
      st2Empty false hrun 1⟩

/-- Counterexample to C4 as stated: on csp4 (built by the pipeline from
the corner grid, the single word ABA, and a generator answering CBC) the
initial ac3 invocation empties the first domain and refills it with CBC;
the final domain of slot 0 contains CBC, which the domain at the start
of the same invocation does not contain, so domains do not only shrink
when a word generator is supplied. -/
theorem C4_counterexample_refill_grows_domain :
    ac3Fuel csp4 10 st4 (defaultArcs csp4) = some (st4X, true) ∧
    wCBC ∈ st4X.domains.getD 0 [] ∧ wCBC ∉ st4.domains.getD 0 [] ∧
    ¬ (∀ w ∈ st4X.domains.getD 0 [], w ∈ st4.domains.getD 0 []) := by
  refine ⟨by decide, by decide, by decide, by decide⟩

/-! ## Theorems: variable selection (C5) -/

/-- Counterexample to C5 as stated: in the degGrid CSP with the first
down slot assigned, slots 1 and 2 are both unassigned with equal domain
sizes and equal numbers of unassigned neighbors, and slot 1 has the
smaller clue number; the claimed tiebreak would therefore pick slot 1,
but select_unassigned_variable picks slot 2, because the code breaks
ties by the total neighbor count len(self.neighbors[v]), not by the
unassigned-neighbor count. -/
theorem C5_counterexample :
    selectUnassigned csp5 st5 asg5 = some 2 ∧
    (asg5.getD 1 none).isNone = true ∧ (asg5.getD 2 none).isNone = true ∧
    (st5.domains.getD 1 []).length = (st5.domains.getD 2 []).length ∧
    specUnassignedDegree csp5 asg5 1 = specUnassignedDegree csp5 asg5 2 ∧
    (csp5.vars.getD 1 defaultSlot).number = some 2 ∧
    (csp5.vars.getD 2 defaultSlot).number = some 3 := by
  refine ⟨by decide, by decide, by decide, by decide, by decide, by decide, by decide⟩

lemma selKeyLt_iff (csp : CSP) (st : CSPState) (v b : Nat) :
    selKeyLt csp st v b = true ↔
      ((st.domains.getD v []).length < (st.domains.getD b []).length ∨
       ((st.domains.getD v []).length = (st.domains.getD b []).length ∧
        (csp.neighbors.getD v []).length > (csp.neighbors.getD b []).length)) := by
  simp [selKeyLt]

lemma selKeyLt_false_iff (csp : CSP) (st : CSPState) (v b : Nat) :
    selKeyLt csp st v b = false ↔
      ¬((st.domains.getD v []).length < (st.domains.getD b []).length ∨
        ((st.domains.getD v []).length = (st.domains.getD b []).length ∧
         (csp.neighbors.getD v []).length > (csp.neighbors.getD b []).length)) := by
  rw [← selKeyLt_iff csp st v b, Bool.eq_false_iff, ne_eq]

lemma selKeyLt_irrefl (csp : CSP) (st : CSPState) (b : Nat) :
    selKeyLt csp st b b = false := by
  rw [selKeyLt_false_iff]
  omega

lemma selKeyLt_trans (csp : CSP) (st : CSPState) {a b c : Nat}
    (h1 : selKeyLt csp st a b = true) (h2 : selKeyLt csp st b c = true) :
    selKeyLt csp st a c = true := by
  rw [selKeyLt_iff] at h1 h2 ⊢
  omega

lemma selKeyLt_cross1 (csp : CSP) (st : CSPState) {v r b : Nat}
    (h1 : selKeyLt csp st v r = true) (h2 : selKeyLt csp st v b = false) :
    selKeyLt csp st b r = true := by
  rw [selKeyLt_iff] at h1 ⊢
  rw [selKeyLt_false_iff] at h2
  omega

lemma selKeyLt_cross2 (csp : CSP) (st : CSPState) {r b v : Nat}
    (h1 : selKeyLt csp st r b = true) (h2 : selKeyLt csp st v b = false) :
    selKeyLt csp st r v = true := by
  rw [selKeyLt_iff] at h1 ⊢
  rw [selKeyLt_false_iff] at h2
  omega

lemma foldl_pick_spec (csp : CSP) (st : CSPState) :
    ∀ (xs : List Nat) (b : Nat), ((b :: xs).Pairwise (· < ·)) →
    (xs.foldl (fun best v => if selKeyLt csp st v best then v else best) b) ∈ b :: xs ∧
    (∀ m ∈ b :: xs,
      selKeyLt csp st m
        (xs.foldl (fun best v => if selKeyLt csp st v best then v else best) b) = false) ∧
    (∀ m ∈ b :: xs,
      m < (xs.foldl (fun best v => if selKeyLt csp st v best then v else best) b) →
      selKeyLt csp st
        (xs.foldl (fun best v => if selKeyLt csp st v best then v else best) b) m = true) := by
  intro xs
  induction xs with
  | nil =>
    intro b _
    simp only [List.foldl_nil]
    refine ⟨List.mem_singleton.mpr rfl, ?_, ?_⟩
    · intro m hm
      rw [List.mem_singleton.mp hm]
      exact selKeyLt_irrefl csp st b
    · intro m hm hlt
      rw [List.mem_singleton.mp hm] at hlt
      omega
  | cons v rest ih =>
    intro b hpw
    have hbv : b < v := (List.pairwise_cons.mp hpw).1 v (List.mem_cons_self v rest)
    have hballv : ∀ m ∈ rest, v < m :=
      (List.pairwise_cons.mp (List.pairwise_cons.mp hpw).2).1
    have hball : ∀ m ∈ rest, b < m := fun m hm =>
      Nat.lt_trans hbv (hballv m hm)
    rw [List.foldl_cons]
    by_cases hlt : selKeyLt csp st v b = true
    · rw [if_pos hlt]
      have hpw2 : (v :: rest).Pairwise (· < ·) := (List.pairwise_cons.mp hpw).2
      obtain ⟨ih1, ih2, ih3⟩ := ih v hpw2
      refine ⟨List.mem_cons_of_mem b ih1, ?_, ?_⟩
      · intro m hm
        rcases List.mem_cons.mp hm with hm | hm
        · subst hm
          rw [Bool.eq_false_iff, ne_eq]
          intro hcon
          have hvr := ih2 v (List.mem_cons_self v rest)
          exact Bool.noConfusion (hvr ▸ selKeyLt_trans csp st hlt hcon)
        · exact ih2 m hm
      · intro m hm hmlt
        rcases List.mem_cons.mp hm with hm | hm
        · subst hm
          set r := rest.foldl (fun best v => if selKeyLt csp st v best then v else best) v
            with hr
          rcases List.mem_cons.mp ih1 with hrv | hrr
          · rw [hrv]
            exact hlt
          · have hvr : v < r := hballv r hrr
            exact selKeyLt_trans csp st (ih3 v (List.mem_cons_self v rest) hvr) hlt
        · exact ih3 m hm hmlt
    · rw [if_neg hlt]
      rw [Bool.not_eq_true] at hlt
      have hpw2 : (b :: rest).Pairwise (· < ·) := by
        rw [List.pairwise_cons]
        exact ⟨hball, (List.pairwise_cons.mp (List.pairwise_cons.mp hpw).2).2⟩
      obtain ⟨ih1, ih2, ih3⟩ := ih b hpw2
      set r := rest.foldl (fun best v => if selKeyLt csp st v best then v else best) b
        with hr
      refine ⟨?_, ?_, ?_⟩
      · rcases List.mem_cons.mp ih1 with hrb | hrr
        · rw [hrb]
          exact List.mem_cons_self b (v :: rest)
        · exact List.mem_cons_of_mem b (List.mem_cons_of_mem v hrr)
      · intro m hm
        rcases List.mem_cons.mp hm with hm | hm
        · rw [hm]
          exact ih2 b (List.mem_cons_self b rest)
        · rcases List.mem_cons.mp hm with hm | hm
          · subst hm
            rw [Bool.eq_false_iff, ne_eq]
            intro hcon
            have hbr := ih2 b (List.mem_cons_self b rest)
            exact Bool.noConfusion (hbr ▸ selKeyLt_cross1 csp st hcon hlt)
          · exact ih2 m (List.mem_cons_of_mem b hm)
      · intro m hm hmlt
        rcases List.mem_cons.mp hm with hm | hm
        · rw [hm] at hmlt ⊢
          exact ih3 b (List.mem_cons_self b rest) hmlt
        · rcases List.mem_cons.mp hm with hm | hm
          · subst hm
            rcases List.mem_cons.mp ih1 with hrb | hrr
            · rw [hrb] at hmlt
              omega
            · have hrb2 : b < r := hball r hrr
              exact selKeyLt_cross2 csp st (ih3 b (List.mem_cons_self b rest) hrb2) hlt
          · exact ih3 m (List.mem_cons_of_mem b hm) hmlt

/-- C5 (amended): select_unassigned_variable picks, among the unassigned
slots, one of minimal key (domain size ascending, then total neighbor
count descending — the code counts all neighbors, assigned or not), and
among slots of equal minimal key the one earliest in the variables scan
order: every unassigned slot earlier than the chosen one has a strictly
larger key. -/
theorem C5_amended_selection_characterization (csp : CSP) (st : CSPState)
    (asg : Asg) (k : Nat) (h : selectUnassigned csp st asg = some k) :
    k < csp.vars.length ∧ (asg.getD k none).isNone = true ∧
    (∀ m, m < csp.vars.length → (asg.getD m none).isNone = true →
      selKeyLt csp st m k = false) ∧
    (∀ m, m < csp.vars.length → (asg.getD m none).isNone = true → m < k →
      selKeyLt csp st k m = true) := by
  unfold selectUnassigned at h
  set L := (List.range csp.vars.length).filter (fun m => (asg.getD m none).isNone)
    with hL
  have hmemL : ∀ m, m ∈ L ↔
      (m < csp.vars.length ∧ (asg.getD m none).isNone = true) := by
    intro m
    rw [hL, List.mem_filter, List.mem_range]
  have hpwL : L.Pairwise (· < ·) :=
    List.Pairwise.filter _ (List.pairwise_lt_range csp.vars.length)
  cases hLc : L with
  | nil =>
    rw [hLc] at h
    exact Option.noConfusion h
  | cons u rest =>
    rw [hLc] at h
    rw [Option.some.injEq] at h
    obtain ⟨s1, s2, s3⟩ := foldl_pick_spec csp st rest u (hLc ▸ hpwL)
    rw [h] at s1 s2 s3
    have hkL : k ∈ L := hLc ▸ s1
    refine ⟨((hmemL k).mp hkL).1, ((hmemL k).mp hkL).2, ?_, ?_⟩
    · intro m hm1 hm2
      exact s2 m (by rw [← hLc]; exact (hmemL m).mpr ⟨hm1, hm2⟩)
    · intro m hm1 hm2 hm3
      exact s3 m (by rw [← hLc]; exact (hmemL m).mpr ⟨hm1, hm2⟩) hm3

/-- Witness for the amended C5 at the concrete state of the
counterexample grid. -/
theorem C5_amended_witness :
    selectUnassigned csp5 st5 asg5 = some 2 ∧
    (asg5.getD 2 none).isNone = true ∧ selKeyLt csp5 st5 2 1 = true := by
  have h : selectUnassigned csp5 st5 asg5 = some 2 := by decide
  have hc := C5_amended_selection_characterization csp5 st5 asg5 2 h
  exact ⟨h, hc.2.1, hc.2.2.2 1 (by decide) (by decide) (by decide)⟩

/-! ## Theorems: backtracking search (C1, C2) -/

lemma set_none_id (asg : Asg) (k : Nat) (h : asg.getD k none = none) :
    asg.set k none = asg := by
  apply List.ext_getElem?
  intro j
  by_cases hj : j = k
  · subst hj
    by_cases hk : j < asg.length
    · rw [List.getElem?_set_eq_of_lt _ hk]
      rw [List.getD_eq_getElem?_getD, List.getElem?_eq_getElem hk] at h
      rw [List.getElem?_eq_getElem hk]
      exact congrArg some (by simpa using h.symm)
    · rw [List.set_eq_of_length_le (Nat.le_of_not_lt hk)]
  · rw [List.getElem?_set_ne (fun hh => hj hh.symm)]

lemma getD_mem_values (asg : Asg) (j : Nat) (w : Word)
    (h : asg.getD j none = some w) : w ∈ asg.filterMap id := by
  rw [List.getD_eq_getElem?_getD] at h
  cases hj : asg[j]? with
  | none => rw [hj] at h; exact Option.noConfusion h
  | some o =>
    rw [hj] at h
    obtain ⟨hlt, hEq⟩ := List.getElem?_eq_some.mp hj
    refine List.mem_filterMap.mpr ⟨some w, ?_, rfl⟩
    have : o = some w := h
    rw [← this, ← hEq]
    exact List.getElem_mem hlt

lemma Inj_insert (asg : Asg) (slot : Nat) (word : Word) (hinj : InjAsg asg)
    (hmem : word ∉ asg.filterMap id) : InjAsg (asg.set slot (some word)) := by
  intro i j w hij hi hj
  by_cases hislot : i = slot
  · subst hislot
    rw [getD_set_self] at hi
    by_cases hk : i < asg.length
    · rw [if_pos hk] at hi
      have hww : w = word := by
        have := Option.some.inj hi
        exact this.symm
      subst hww
      rw [getD_set_ne _ hij] at hj
      exact hmem (getD_mem_values asg j w hj)
    · rw [if_neg hk] at hi
      exact Option.noConfusion hi
  · rw [getD_set_ne _ (fun hh => hislot hh.symm)] at hi
    by_cases hjslot : j = slot
    · subst hjslot
      rw [getD_set_self] at hj
      by_cases hk : j < asg.length
      · rw [if_pos hk] at hj
        have hww : w = word := (Option.some.inj hj).symm
        subst hww
        exact hmem (getD_mem_values asg i w hi)
      · rw [if_neg hk] at hj
        exact Option.noConfusion hj
    · rw [getD_set_ne _ (fun hh => hjslot hh.symm)] at hj
      exact hinj i j w hij hi hj

lemma isConsistent_not_mem (csp : CSP) (slot : Nat) (word : Word) (asg : Asg)
    (h : isConsistent csp slot word asg = true) : word ∉ asg.filterMap id := by
  intro hmem
  unfold isConsistent at h
  rw [if_pos hmem] at h
  exact Bool.noConfusion h

lemma selectUnassigned_isNone (csp : CSP) (st : CSPState) (asg : Asg) (k : Nat)
    (h : selectUnassigned csp st asg = some k) : asg.getD k none = none := by
  unfold selectUnassigned at h
  set L := (List.range csp.vars.length).filter (fun m => (asg.getD m none).isNone)
    with hL
  have hpwL : L.Pairwise (· < ·) :=
    List.Pairwise.filter _ (List.pairwise_lt_range csp.vars.length)
  cases hLc : L with
  | nil =>
    rw [hLc] at h
    exact Option.noConfusion h
  | cons u rest =>
    rw [hLc] at h
    rw [Option.some.injEq] at h
    obtain ⟨s1, _, _⟩ := foldl_pick_spec csp st rest u (hLc ▸ hpwL)
    rw [h] at s1
    have hkL : k ∈ L := hLc ▸ s1
    rw [hL, List.mem_filter] at hkL
    exact Option.isNone_iff_eq_none.mp hkL.2

lemma tryValueGo_restore (csp : CSP) (ui : Bool) (bt : CSPState → Asg → BTRes)
    (inf : CSPState → List (Nat × Nat) → Option (CSPState × Bool))
    (hbt : ∀ st asg st2 asg2, bt st asg = some (st2, asg2, none) →
      asg2 = asg ∧ st2.domains = st.domains)
    (st : CSPState) (asg : Asg) (slot : Nat) (word : Word) (st2 : CSPState)
    (asg2 : Asg) (hslot : asg.getD slot none = none)
    (h : tryValueGo csp ui bt inf st asg slot word = some (st2, asg2, none)) :
    asg2 = asg ∧ st2.domains = st.domains := by
  have hset : (asg.set slot (some word)).set slot none = asg := by
    rw [List.set_set]
    exact set_none_id asg slot hslot
  simp only [tryValueGo] at h
  split at h
  · split at h
    · exact Option.noConfusion h
    · rename_i st1 ok heq
      split at h
      · exact Option.noConfusion h
      · rw [Option.some.injEq, Prod.mk.injEq, Prod.mk.injEq] at h
        exact Option.noConfusion h.2.2
      · rename_i stR asgR heq2
        rw [Option.some.injEq, Prod.mk.injEq, Prod.mk.injEq] at h
        obtain ⟨hst2, hasg2, _⟩ := h
        have hback : asgR = asg.set slot (some word) ∧
            (ok = true → stR.domains = st1.domains) ∧
            (ok = false → stR = st1) := by
          by_cases hok : ok = true
          · rw [if_pos hok] at heq2
            have hres := hbt st1 (asg.set slot (some word)) stR asgR heq2
            exact ⟨hres.1, fun _ => hres.2, fun hf => absurd hok (by rw [hf]; simp)⟩
          · rw [if_neg hok] at heq2
            rw [Option.some.injEq, Prod.mk.injEq, Prod.mk.injEq] at heq2
            exact ⟨heq2.2.1.symm, fun ht => absurd ht hok,
              fun _ => heq2.1.symm⟩
        refine ⟨by rw [← hasg2, hback.1, hset], ?_⟩
        by_cases hui : ui = true
        · rw [← hst2, if_pos hui]
        · rw [if_neg hui] at heq
          rw [Option.some.injEq, Prod.mk.injEq] at heq
          have hok : ok = true := heq.2.symm
          have hst1 : st1 = st := heq.1.symm
          rw [← hst2, if_neg hui, hback.2.1 hok, hst1]
  · rw [Option.some.injEq, Prod.mk.injEq, Prod.mk.injEq] at h
    exact ⟨h.2.1.symm, by rw [← h.1]⟩

lemma tryWordsGo_restore (csp : CSP) (ui : Bool) (bt : CSPState → Asg → BTRes)
    (inf : CSPState → List (Nat × Nat) → Option (CSPState × Bool))
    (hbt : ∀ st asg st2 asg2, bt st asg = some (st2, asg2, none) →
      asg2 = asg ∧ st2.domains = st.domains) (slot : Nat) :
    ∀ (words : List Word) (st : CSPState) (asg : Asg) (st2 : CSPState) (asg2 : Asg),
    asg.getD slot none = none →
    tryWordsGo csp ui bt inf slot st asg words = some (st2, asg2, none) →
    asg2 = asg ∧ st2.domains = st.domains := by
  intro words
  induction words with
  | nil =>
    intro st asg st2 asg2 _ h
    simp only [tryWordsGo, Option.some.injEq, Prod.mk.injEq] at h
    exact ⟨h.2.1.symm, by rw [← h.1]⟩
  | cons word rest ih =>
    intro st asg st2 asg2 hslot h
    simp only [tryWordsGo] at h
    split at h
    · exact Option.noConfusion h
    · rw [Option.some.injEq, Prod.mk.injEq, Prod.mk.injEq] at h
      exact Option.noConfusion h.2.2
    · rename_i stT asgT heq
      have hv := tryValueGo_restore csp ui bt inf hbt st asg slot word stT asgT
        hslot heq
      have hslot2 : asgT.getD slot none = none := by rw [hv.1]; exact hslot
      obtain ⟨ha, hd⟩ := ih stT asgT st2 asg2 hslot2 h
      exact ⟨by rw [ha, hv.1], by rw [hd, hv.2]⟩

lemma backtrackFuel_restore (csp : CSP) (ui : Bool) :
    ∀ (fuel : Nat) (st : CSPState) (asg : Asg) (st2 : CSPState) (asg2 : Asg),
    backtrackFuel csp ui fuel st asg = some (st2, asg2, none) →
    asg2 = asg ∧ st2.domains = st.domains := by
  intro fuel
  induction fuel with
  | zero =>
    intro st asg st2 asg2 h
    exact Option.noConfusion h
  | succ f ih =>
    intro st asg st2 asg2 h
    simp only [backtrackFuel] at h
    split at h
    · rw [Option.some.injEq, Prod.mk.injEq, Prod.mk.injEq] at h
      exact Option.noConfusion h.2.2
    · split at h
      · rw [Option.some.injEq, Prod.mk.injEq, Prod.mk.injEq] at h
        exact Option.noConfusion h.2.2
      · rename_i slot hsel
        exact tryWordsGo_restore csp ui _ _ (fun s a s2 a2 hh => ih s a s2 a2 hh)
          slot _ st asg st2 asg2 (selectUnassigned_isNone csp st asg slot hsel) h

lemma tryValueGo_inj (csp : CSP) (ui : Bool) (bt : CSPState → Asg → BTRes)
    (inf : CSPState → List (Nat × Nat) → Option (CSPState × Bool))
    (hbtInj : ∀ st asg st2 asg2 res, InjAsg asg →
      bt st asg = some (st2, asg2, some res) → InjAsg res)
    (st : CSPState) (asg : Asg) (slot : Nat) (word : Word) (st2 : CSPState)
    (asg2 : Asg) (res : Asg) (hinj : InjAsg asg)
    (h : tryValueGo csp ui bt inf st asg slot word = some (st2, asg2, some res)) :
    InjAsg res := by
  simp only [tryValueGo] at h
  split at h
  · rename_i hcons
    split at h
    · exact Option.noConfusion h
    · rename_i st1 ok heq
      split at h
      · exact Option.noConfusion h
      · rename_i stR asgR r heq2
        rw [Option.some.injEq, Prod.mk.injEq, Prod.mk.injEq,
          Option.some.injEq] at h
        have hres : r = res := h.2.2
        by_cases hok : ok = true
        · rw [if_pos hok] at heq2
          have hinj1 : InjAsg (asg.set slot (some word)) :=
            Inj_insert asg slot word hinj
              (isConsistent_not_mem csp slot word asg hcons)
          exact hres ▸ hbtInj st1 (asg.set slot (some word)) stR asgR r hinj1 heq2
        · rw [if_neg hok] at heq2
          rw [Option.some.injEq, Prod.mk.injEq, Prod.mk.injEq] at heq2
          exact Option.noConfusion heq2.2.2
      · rw [Option.some.injEq, Prod.mk.injEq, Prod.mk.injEq] at h
        exact Option.noConfusion h.2.2
  · rw [Option.some.injEq, Prod.mk.injEq, Prod.mk.injEq] at h
    exact Option.noConfusion h.2.2

lemma tryWordsGo_inj (csp : CSP) (ui : Bool) (bt : CSPState → Asg → BTRes)
    (inf : CSPState → List (Nat × Nat) → Option (CSPState × Bool))
    (hbt : ∀ st asg st2 asg2, bt st asg = some (st2, asg2, none) →
      asg2 = asg ∧ st2.domains = st.domains)
    (hbtInj : ∀ st asg st2 asg2 res, InjAsg asg →
      bt st asg = some (st2, asg2, some res) → InjAsg res) (slot : Nat) :
    ∀ (words : List Word) (st : CSPState) (asg : Asg) (st2 : CSPState)
      (asg2 : Asg) (res : Asg),
    asg.getD slot none = none → InjAsg asg →
    tryWordsGo csp ui bt inf slot st asg words = some (st2, asg2, some res) →
    InjAsg res := by
  intro words
  induction words with
  | nil =>
    intro st asg st2 asg2 res _ _ h
    simp only [tryWordsGo, Option.some.injEq, Prod.mk.injEq] at h
    exact Option.noConfusion h.2.2
  | cons word rest ih =>
    intro st asg st2 asg2 res hslot hinj h
    simp only [tryWordsGo] at h
    split at h
    · exact Option.noConfusion h
    · rename_i stT asgT r heq
      rw [Option.some.injEq, Prod.mk.injEq, Prod.mk.injEq,
        Option.some.injEq] at h
      exact h.2.2 ▸ tryValueGo_inj csp ui bt inf hbtInj st asg slot word
        stT asgT r hinj heq
    · rename_i stT asgT heq
      have hv := tryValueGo_restore csp ui bt inf hbt st asg slot word stT asgT
        hslot heq
      have hslot2 : asgT.getD slot none = none := by rw [hv.1]; exact hslot
      have hinj2 : InjAsg asgT := by rw [hv.1]; exact hinj
      exact ih stT asgT st2 asg2 res hslot2 hinj2 h

lemma backtrackFuel_inj (csp : CSP) (ui : Bool) :
    ∀ (fuel : Nat) (st : CSPState) (asg : Asg) (st2 : CSPState) (asg2 : Asg)
      (res : Asg), InjAsg asg →
    backtrackFuel csp ui fuel st asg = some (st2, asg2, some res) →
    InjAsg res := by
  intro fuel
  induction fuel with
  | zero =>
    intro st asg st2 asg2 res _ h
    exact Option.noConfusion h
  | succ f ih =>
    intro st asg st2 asg2 res hinj h
    simp only [backtrackFuel] at h
    split at h
    · rw [Option.some.injEq, Prod.mk.injEq, Prod.mk.injEq,
        Option.some.injEq] at h
      exact h.2.2 ▸ hinj
    · split at h
      · rw [Option.some.injEq, Prod.mk.injEq, Prod.mk.injEq,
          Option.some.injEq] at h
        exact h.2.2 ▸ hinj
      · rename_i slot hsel
        exact tryWordsGo_inj csp ui _ _
          (fun s a s2 a2 hh => backtrackFuel_restore csp ui f s a s2 a2 hh)
          (fun s a s2 a2 r hi hh => ih s a s2 a2 r hi hh) slot _ st asg st2
          asg2 res (selectUnassigned_isNone csp st asg slot hsel) hinj h

lemma Inj_replicate (n : Nat) : InjAsg (List.replicate n none) := by
  intro i j w _ hi _
  have hz : (List.replicate n (none : Option Word)).getD i none = none := by
    rw [List.getD_eq_getElem?_getD, List.getElem?_replicate]
    split <;> rfl
  rw [hz] at hi
  exact Option.noConfusion hi

/-- C2: whenever a value tried at a search node fails (the AC-3
inference fails or the recursive backtrack call returns None), the
domains map and the partial assignment after the attempt are identical
to their state immediately before the value was committed. -/
theorem C2_failed_value_restores_state (csp : CSP) (ui : Bool) (fuel : Nat)
    (st : CSPState) (asg : Asg) (slot : Nat) (word : Word) (st2 : CSPState)
    (asg2 : Asg) (hslot : asg.getD slot none = none)
    (h : tryValue csp ui fuel st asg slot word = some (st2, asg2, none)) :
    st2.domains = st.domains ∧ asg2 = asg := by
  have hr := tryValueGo_restore csp ui
    (fun s a => backtrackFuel csp ui fuel s a) (fun s arcs => ac3Fuel csp fuel s arcs)
    (fun s a s2 a2 hh => backtrackFuel_restore csp ui fuel s a s2 a2 hh)
    st asg slot word st2 asg2 hslot h
  exact ⟨hr.2, hr.1⟩

/-- Witness for C2 on the one-word corner CSP, where the recursive call
below the tried value ABA fails and the state is restored. -/
theorem C2_failed_value_restores_state_witness :
    (([none, none] : Asg).getD 0 none = none) ∧
    tryValue csp2 true 10 st2 [none, none] 0 wABA = some (st2, [none, none], none) ∧
    st2.domains = st2.domains ∧ ([none, none] : Asg) = [none, none] := by
  have h : tryValue csp2 true 10 st2 [none, none] 0 wABA =
      some (st2, [none, none], none) := by decide
  exact ⟨by decide, h,
    C2_failed_value_restores_state csp2 true 10 st2 [none, none] 0 wABA st2
      [none, none] (by decide) h⟩

/-- C1: whenever CrosswordCSP.solve returns a non-None assignment, that
assignment is injective: no two distinct slots carry the same word. -/
theorem C1_solve_injective (csp : CSP) (st : CSPState) (ui : Bool) (fuel : Nat)
    (st2 : CSPState) (asg : Asg)
    (h : solveFuel csp st ui fuel = some (st2, some asg)) : InjAsg asg := by
  simp only [solveFuel] at h
  split at h
  · exact Option.noConfusion h
  · rw [Option.some.injEq, Prod.mk.injEq] at h
    exact Option.noConfusion h.2
  · rename_i stX hac
    split at h
    · exact Option.noConfusion h
    · rename_i st3 a3 result heq
      rw [Option.some.injEq, Prod.mk.injEq] at h
      rw [h.2] at heq
      exact backtrackFuel_inj csp ui fuel stX
        (List.replicate csp.vars.length none) st3 a3 asg
        (Inj_replicate csp.vars.length) heq

/-- Witness for C1 on the solvable corner CSP. -/
theorem C1_solve_injective_witness :
    solveFuel csp1 st1 true 30 = some (st1Final, some asg1Final) ∧
    InjAsg asg1Final := by
  have h : solveFuel csp1 st1 true 30 = some (st1Final, some asg1Final) := by
    decide
  exact ⟨h, C1_solve_injective csp1 st1 true 30 st1Final asg1Final h⟩

/-! ## Theorems: the pattern word cache (C8) -/

/-- C8 (amended): a get_words_matching_pattern call for a cached
(pattern, theme) key returns the cached list minus the excluded words,
truncated to count, without consuming budget — the limiter and the
api_calls counter are untouched and no request is issued — provided at
least one cached word survives the exclusion filter.  When every cached
word is excluded, the code treats the probe as a miss and proceeds to
the client, so an API request may be made. -/
theorem C8_amended_cache_hit_no_budget (g : GenState) (pattern : Word)
    (count : Nat) (theme : Option Word) (used : List Word)
    (cached available : List Word)
    (hc : cacheGet g.word_cache
      ((pattern.map Char.toUpper) ++
        (':' :: (match theme with | some t => t | none => []))) = some cached)
    (hav : available = cached.filter
      (fun w => decide ((w.map Char.toUpper) ∉ used)))
    (hne : available ≠ []) :
    (getWordsMatchingPattern g pattern count theme used).2 = available.take count ∧
    (getWordsMatchingPattern g pattern count theme used).1.limiter = g.limiter ∧
    (getWordsMatchingPattern g pattern count theme used).1.stats_api_calls =
      g.stats_api_calls ∧
    (getWordsMatchingPattern g pattern count theme used).1.word_cache =
      g.word_cache := by
  have hemp : ¬ available.isEmpty = true := by
    simpa [List.isEmpty_iff] using hne
  simp only [getWordsMatchingPattern, hc]
  rw [← hav, if_neg hemp]
  exact ⟨rfl, rfl, rfl, rfl⟩

/-- Witness for the amended C8 at the concrete cached generator state
with an exclusion set that leaves the cached word available. -/
theorem C8_amended_cache_hit_witness :
    cacheGet gen8.word_cache ((wABC.map Char.toUpper) ++ [':']) = some [wABC] ∧
    (getWordsMatchingPattern gen8 wABC 10 none []).2 = [wABC] ∧
    (getWordsMatchingPattern gen8 wABC 10 none []).1.limiter = gen8.limiter := by
  have h := C8_amended_cache_hit_no_budget gen8 wABC 10 none [] [wABC] [wABC]
    (by decide) (by decide) (by decide)
  exact ⟨by decide, h.1, h.2.1⟩

/-- Counterexample to C8 as stated: gen8 holds a cache entry for the
pattern ABC with no theme, yet the call excluding the single cached word
does not return the filtered cache subset budget-free — it falls through
to the client, makes an API request (api_calls and the limiter total go
from 0 to 1) and returns the parse of the response instead. -/
theorem C8_counterexample_full_exclusion_consumes_budget :
    cacheGet gen8.word_cache ((wABC.map Char.toUpper) ++ [':']) = some [wABC] ∧
    gen8.limiter.total_calls = 0 ∧ gen8.stats_api_calls = 0 ∧
    (getWordsMatchingPattern gen8 wABC 10 none [wABC]).1.limiter.total_calls = 1 ∧
    (getWordsMatchingPattern gen8 wABC 10 none [wABC]).1.stats_api_calls = 1 ∧
    (getWordsMatchingPattern gen8 wABC 10 none [wABC]).2 = [] := by
  refine ⟨by decide, rfl, rfl, by decide, by decide, by decide⟩

end CrosswordVerif
